import Mathlib

/-!
Verification of the instaclone `FileCache` core: cache addressing
(`pathify_remote_loc`, `versioned_path`, `cache_path`, `remote_loc`),
version resolution (`version_for`), the install-from-cache strategy
(`_install_from_cache`), archive symlink handling (`followlink`,
`targz_dir`'s filter), the lazy cache `setup`, the `install` transfer
flow, and config selection (`select_configs`).

Python library path helpers (`posixpath.join/basename/dirname/normpath`,
`str.rstrip/strip/startswith`, `re.findall` runs) are embedded as pure
functions on `String`/`List Char`.  Filesystem- and subprocess-touching
operations are embedded as transition functions over explicit small state
types, with external command outcomes supplied by environment records.
-/

/-- Characters matched by the character class `[a-zA-Z0-9_.-]` of the regex
in `FileCache.pathify_remote_loc` (instaclone.py line 234). -/
def isTokChar (c : Char) : Bool :=
  c.isAlpha || c.isDigit || c == '_' || c == '.' || c == '-'

/-- `re.findall("[a-zA-Z0-9_.-]+", s)` on a character list: the maximal runs
of characters satisfying `isTokChar`, in order.  The accumulator holds the
current run (reversed) when scanning is inside a run. -/
def tokenRunsAux : List Char → Option (List Char) → List (List Char)
  | [], none => []
  | [], some acc => [acc.reverse]
  | c :: cs, none =>
    if isTokChar c then tokenRunsAux cs (some [c]) else tokenRunsAux cs none
  | c :: cs, some acc =>
    if isTokChar c then tokenRunsAux cs (some (c :: acc))
    else acc.reverse :: tokenRunsAux cs none

/-- The maximal `[a-zA-Z0-9_.-]+` runs of a string. -/
def tokenRuns (s : String) : List (List Char) :=
  tokenRunsAux s.data none

/-- `str.startswith`: `pyStartswith s p` is Python's `s.startswith(p)`. -/
def pyStartswith (s p : String) : Bool :=
  p.data.isPrefixOf s.data

/-- `posixpath.isabs`: does the path begin with a slash. -/
def pyIsAbs (s : String) : Bool :=
  s.data.head? == some '/'

/-- Does the string end with a slash (used by `posixpath.join`). -/
def endsWithSlash (s : String) : Bool :=
  s.data.getLast? == some '/'

/-- `posixpath.join(a, b)`: an absolute second component replaces the first;
otherwise the parts are glued with a slash unless one is already there. -/
def pyJoin2 (a b : String) : String :=
  if pyIsAbs b then b
  else if a = "" || endsWithSlash a then a ++ b
  else a ++ "/" ++ b

/-- What `pyJoin2 a b` places before `b` when `b` is not absolute. -/
def joinTail (a : String) : String :=
  if a = "" then "" else if endsWithSlash a then a else a ++ "/"

/-- `str.rstrip("/")`. -/
def pyRstripSlash (s : String) : String :=
  ⟨(s.data.reverse.dropWhile (· == '/')).reverse⟩

/-- `posixpath.basename`: the part after the last slash. -/
def pyBasename (s : String) : String :=
  ⟨(s.data.reverse.takeWhile (· != '/')).reverse⟩

/-- `posixpath.dirname`: the part before the last slash, with trailing
slashes stripped unless the result is all slashes. -/
def pyDirname (s : String) : String :=
  let head := (s.data.reverse.dropWhile (· != '/')).reverse
  if head = [] then ""
  else if head.all (· == '/') then ⟨head⟩
  else ⟨(head.reverse.dropWhile (· == '/')).reverse⟩

/-- `str.split("/")` on a character list (keeps empty components, as Python
does for an explicit separator). -/
def pySplitChars : List Char → List (List Char)
  | [] => [[]]
  | c :: cs =>
    match pySplitChars cs with
    | [] => [[]]
    | h :: t => if c == '/' then [] :: h :: t else (c :: h) :: t

/-- `"/".join` on character-list components. -/
def joinWithSlash : List (List Char) → List Char
  | [] => []
  | [x] => x
  | x :: xs => x ++ '/' :: joinWithSlash xs

/-- The component loop of `posixpath.normpath`: drop empty and `.` parts,
let `..` pop the previous part except at the start of a relative path or
after an unresolved `..`.  The accumulator is reversed. -/
def normAux (initSlashes : Nat) : List (List Char) → List (List Char) → List (List Char)
  | acc, [] => acc.reverse
  | acc, comp :: rest =>
    if comp == [] || comp == ['.'] then normAux initSlashes acc rest
    else if comp != ['.', '.'] || (initSlashes == 0 && acc == []) ||
        acc.head? == some ['.', '.'] then
      normAux initSlashes (comp :: acc) rest
    else
      match acc with
      | [] => normAux initSlashes [] rest
      | _ :: acc' => normAux initSlashes acc' rest

/-- `posixpath.normpath`. -/
def pyNormpath (s : String) : String :=
  if s = "" then "."
  else
    let initSlashes : Nat :=
      if pyStartswith s "/" then
        (if pyStartswith s "//" && !(pyStartswith s "///") then 2 else 1)
      else 0
    let comps := normAux initSlashes [] (pySplitChars s.data)
    let path : List Char := List.replicate initSlashes '/' ++ joinWithSlash comps
    if path = [] then "." else ⟨path⟩

/-- Python whitespace characters removed by `str.strip()`. -/
def isPyWs (c : Char) : Bool :=
  c == ' ' || c == '\t' || c == '\n' || c == '\r' || c == '\x0b' || c == '\x0c'

/-- `str.strip()`. -/
def pyStrip (s : String) : String :=
  ⟨((s.data.dropWhile isPyWs).reverse.dropWhile isPyWs).reverse⟩

/-- `"-".join`. -/
def joinDash : List String → String
  | [] => ""
  | [x] => x
  | x :: xs => x ++ "-" ++ joinDash xs

/-- `configs.InstallMethod` (configs.py line 70). -/
inductive InstallMethod
  | symlink
  | hardlink
  | copy
  | fastcopy
deriving DecidableEq, Repr

/-- The fields of a parsed item config (configs.py `Config`) used by the
`FileCache` core.  Shell command templates are kept as opaque strings. -/
structure Config where
  name : String
  local_path : String
  remote_path : String
  remote_prefix : String
  install_method : InstallMethod
  version_string : Option String
  version_hashable : Option String
  version_command : Option String
deriving DecidableEq, Repr

/-- `VERSION_SEP` (instaclone.py line 189). -/
def VERSION_SEP : String := ".$"

/-- `VERSION_END` (instaclone.py line 190). -/
def VERSION_END : String := "$"

/-- `ARCHIVER.suffix` = `TarGzArchiver.suffix` (archives.py line 94). -/
def tarGzSuffix : String := ".tar.gz"

/-- The path fields computed by `FileCache.__init__` (instaclone.py lines
202-207); the filesystem existence assertion is not a path computation and
is not modelled. -/
structure FileCache where
  root_path : String
  contents_path : String
  version_path : String

/-- `FileCache.__init__`: note `contents_path`/`version_path` join the raw
argument while `root_path` stores it right-stripped of slashes. -/
def FileCache.ofRoot (root : String) : FileCache :=
  { root_path := pyRstripSlash root
    contents_path := pyJoin2 root "contents"
    version_path := pyJoin2 root "version" }

/-- `FileCache.versioned_path` (instaclone.py lines 226-230). -/
def FileCache.versioned_path (config : Config) (version : String) (suffix : String) : String :=
  pyJoin2
    (pyJoin2 config.remote_path (config.name ++ VERSION_SEP ++ version ++ VERSION_END))
    (pyBasename config.name ++ suffix)

/-- `FileCache.pathify_remote_loc` (instaclone.py lines 232-234):
`os.path.join(*re.findall("[a-zA-Z0-9_.-]+", remote_loc))`.  With no runs
at all, Python's `os.path.join(*[])` raises `TypeError`; that case is
`none`. -/
def FileCache.pathify_remote_loc (remote_loc : String) : Option String :=
  match tokenRuns remote_loc with
  | [] => none
  | r :: rs => some ((rs.map (fun l => (⟨l⟩ : String))).foldl pyJoin2 ⟨r⟩)

/-- `FileCache.cache_path` (instaclone.py lines 236-239). -/
def FileCache.cache_path (fc : FileCache) (config : Config) (version : String)
    (suffix : String) : Option String :=
  (FileCache.pathify_remote_loc config.remote_prefix).map fun p =>
    pyJoin2 (pyJoin2 fc.contents_path p) (FileCache.versioned_path config version suffix)

/-- `FileCache.remote_loc` (instaclone.py lines 241-243). -/
def FileCache.remote_loc (config : Config) (version : String) (suffix : String) : String :=
  pyJoin2 config.remote_prefix (FileCache.versioned_path config version suffix)

/-- External inputs of `version_for`: `strif.file_sha1` (digest of the file
currently at a path) and `subprocess.check_output` (stdout of a command). -/
structure VEnv where
  file_sha1 : String → String
  check_output : String → String

/-- `configs.ConfigError` as raised by `version_for`. -/
inductive VError
  | configError (msg : String)
deriving DecidableEq, Repr

/-- Python truthiness of an optional string field (`if config.version_string:`
is false both for `None` and for the empty string). -/
def pyTruthy : Option String → Bool
  | none => false
  | some s => s != ""

/-- `_CONFIG_VERSION_RE.match` where `_CONFIG_VERSION_RE =
re.compile("^[\\w.-]+$")` (configs.py line 44): `\w` on Python 2 byte
strings is `[a-zA-Z0-9_]`, and `$` also matches just before one trailing
newline. -/
def versionReMatch (s : String) : Bool :=
  let l := if s.data.getLast? == some '\n' then s.data.dropLast else s.data
  !l.isEmpty && l.all isTokChar

/-- `version_for` (instaclone.py lines 344-362): the dash-join of the
explicit version string, the SHA-1 of the hashable file, and the stripped
version-command output, whichever are (truthily) set; a command output that
fails `_CONFIG_VERSION_RE` raises `ConfigError`. -/
def version_for (env : VEnv) (config : Config) : Except VError String :=
  let bits1 : List String :=
    if pyTruthy config.version_string then [config.version_string.getD ""] else []
  let bits2 : List String :=
    if pyTruthy config.version_hashable then
      bits1 ++ [env.file_sha1 (config.version_hashable.getD "")]
    else bits1
  if pyTruthy config.version_command then
    let output := pyStrip (env.check_output (config.version_command.getD ""))
    if versionReMatch output then Except.ok (joinDash (bits2 ++ [output]))
    else Except.error (VError.configError ("Invalid version output from version command: " ++ output))
  else Except.ok (joinDash bits2)

/-- A filesystem node as observed at the install target location: a regular
file, a directory (payload `Nat`s stand for contents identity), or a
symlink. -/
inductive FsNode
  | file (id : Nat)
  | dir (id : Nat)
  | symlink (target : String)
deriving DecidableEq, Repr

/-- `os.path.islink` on a node. -/
def FsNode.isLink : FsNode → Bool
  | .symlink _ => true
  | _ => false

/-- `os.path.isdir` on a node. -/
def FsNode.isDirNode : FsNode → Bool
  | .dir _ => true
  | _ => false

/-- The slice of filesystem state `_install_from_cache` mutates: the node at
`target_path` (if any) and the node at `target_path + BACKUP_SUFFIX`. -/
structure TState where
  target : Option FsNode
  backup : Option FsNode
deriving DecidableEq, Repr

/-- Errors raised by `_install_from_cache`: `AppError`, `AssertionError`
(instaclone.py lines 155, 158, 165, 186), and the
`subprocess.CalledProcessError` that a nonzero rsync exit propagates (the
`except` at line 178 catches only `OSError`). -/
inductive IErr
  | appError (msg : String)
  | assertionError (msg : String)
  | calledProcessError (msg : String)
deriving DecidableEq, Repr

/-- `clear_symlink` (instaclone.py lines 140-143): unconditionally unlink a
symlink at the target. -/
def clear_symlink (st : TState) : TState :=
  match st.target with
  | some (FsNode.symlink _) => { st with target := none }
  | _ => st

/-- `checked_remove` (instaclone.py lines 145-155): clear a symlink, then
either back the target up (removing any stale backup), remove it, or raise
`AppError` when `force` is not set. -/
def checked_remove (target_path : String) (force make_backup : Bool) (st : TState) :
    TState × Option IErr :=
  let st1 := clear_symlink st
  match st1.target with
  | some n =>
    if force then
      if make_backup then ({ target := none, backup := some n }, none)
      else ({ st1 with target := none }, none)
    else (st1, some (IErr.appError ("Target already exists: " ++ target_path)))
  | none => (st1, none)

/-- `_install_from_cache` (instaclone.py lines 134-186) as a transition on
the target/backup state.  `cacheNode` is what `os.path` observes at
`cache_path` (`none` = missing); `rsyncAvailable` tells whether invoking
rsync raises `OSError` (the caught fallback in the fastcopy branch).
Hardlinking and copying produce a node with the cache node's contents.
In the fastcopy branch with a directory cache entry and rsync present,
`_rsync_dir` mirrors the cache over an absent or directory target, but on
a regular-file target rsync refuses the non-directory destination and
exits nonzero; `check_call` then raises `CalledProcessError`, which the
`except OSError` clause does not catch. -/
def _install_from_cache (cacheNode : Option FsNode) (cache_path target_path : String)
    (rsyncAvailable : Bool) (install_method : InstallMethod) (force make_backup : Bool)
    (st : TState) : TState × Option IErr :=
  match cacheNode with
  | none => (st, some (IErr.assertionError ("Cached file missing: " ++ cache_path)))
  | some cn =>
    match install_method with
    | InstallMethod.symlink =>
      match checked_remove target_path force make_backup st with
      | (st1, some e) => (st1, some e)
      | (st1, none) => ({ st1 with target := some (FsNode.symlink cache_path) }, none)
    | InstallMethod.hardlink =>
      if cn.isDirNode then
        (st, some (IErr.appError ("Can't hardlink a directory: " ++ cache_path)))
      else
        match checked_remove target_path force make_backup st with
        | (st1, some e) => (st1, some e)
        | (st1, none) => ({ st1 with target := some cn }, none)
    | InstallMethod.copy =>
      match checked_remove target_path force make_backup st with
      | (st1, some e) => (st1, some e)
      | (st1, none) => ({ st1 with target := some cn }, none)
    | InstallMethod.fastcopy =>
      if cn.isDirNode then
        if rsyncAvailable then
          match clear_symlink st with
          | st1 =>
            match st1.target with
            | some (FsNode.file _) =>
              (st1, some (IErr.calledProcessError
                "rsync exited nonzero: cannot overwrite non-directory target"))
            | _ => ({ st1 with target := some cn }, none)
        else
          match checked_remove target_path force make_backup st with
          | (st1, some e) => (st1, some e)
          | (st1, none) => ({ st1 with target := some cn }, none)
      else
        match checked_remove target_path force make_backup st with
        | (st1, some e) => (st1, some e)
        | (st1, none) => ({ st1 with target := some cn }, none)

/-- The filesystem view used by `archives.followlink` and `targz_dir`'s
symlink filter: link status, link target, and (dereferencing) existence,
each keyed by a path string. -/
structure Fs where
  islink : String → Bool
  readlink : String → String
  pathExists : String → Bool

/-- The dereferencing loop of `followlink` (archives.py lines 46-51): each
step rewrites the path through `normpath(join(dirname(path), readlink(path)))`;
`n` is the remaining follow allowance (`max_follows`). -/
def followlinkAux (fs : Fs) (orig_path : String) : String → Nat → Except String String
  | path, n =>
    if fs.islink path then
      match n with
      | 0 => Except.error ("Too many symlinks: " ++ orig_path)
      | Nat.succ m =>
        followlinkAux fs orig_path
          (pyNormpath (pyJoin2 (pyDirname path) (fs.readlink path))) m
    else Except.ok path

/-- `archives.followlink` (archives.py lines 37-53): error if the (fully
dereferenced) path does not exist, then follow links up to `max_follows`
times. -/
def followlink (fs : Fs) (path : String) (max_follows : Nat) : Except String String :=
  if !fs.pathExists path then Except.error ("Not found: " ++ path)
  else followlinkAux fs path path max_follows

/-- What the `tarinfo_filter` of `targz_dir` decides for a symlink member. -/
inductive LinkAction
  | keepLink
  | dereference (target : String)
deriving DecidableEq, Repr

/-- The symlink branch of `tarinfo_filter` in `targz_dir` (archives.py lines
65-78): resolve the link, then keep it as-is unless the resolved target is
absolute or the `normpath(join(norm_source_dir, target)).startswith(...)`
test fails, in which case dereference (failing on a missing target) or
error, per `dereference_ext_symlinks`. -/
def classify_symlink (fs : Fs) (norm_source_dir member_name : String)
    (dereference_ext_symlinks : Bool) : Except String LinkAction :=
  match followlink fs (pyJoin2 norm_source_dir member_name) 10 with
  | Except.error e => Except.error e
  | Except.ok target =>
    if pyIsAbs target ||
        !(pyStartswith (pyNormpath (pyJoin2 norm_source_dir target)) norm_source_dir) then
      if dereference_ext_symlinks then
        if !fs.pathExists target then
          Except.error ("Symlink target not found: " ++ member_name ++ " -> " ++ target)
        else Except.ok (LinkAction.dereference target)
      else
        Except.error ("Absolute path in symlink target not supported: " ++
          member_name ++ " -> " ++ target)
    else Except.ok LinkAction.keepLink

/-- Modelled from the spec: a resolved symlink target "stays within the
source tree" when it is a relative path whose normalized resolution is the
source directory or strictly below it. -/
def withinTree (norm_source_dir target : String) : Bool :=
  !(pyIsAbs target) &&
    (pyNormpath target == norm_source_dir ||
      pyStartswith (pyNormpath target) (norm_source_dir ++ "/"))

/-- One observable step of `FileCache.install`. -/
inductive IEvent
  | setupEvt
  | download (remote : String) (localPath : String)
  | decompress (archive : String) (target : String)
  | unlinkFile (path : String)
  | makeReadonly (path : String)
  | installFromCache (cachePath : String) (targetPath : String)
deriving DecidableEq, Repr

/-- Outcomes of the external world during `FileCache.install`: whether the
cache entry is already on disk and whether each download command exits 0. -/
structure IEnv where
  cachedExists : Bool
  archiveDownloadOk : Bool
  flatDownloadOk : Bool

/-- Is an event a download-command execution. -/
def IEvent.isDownload : IEvent → Bool
  | .download _ _ => true
  | _ => false

/-- `FileCache.install` (instaclone.py lines 302-335) as the sequence of
observable operations it performs, plus whether it completes (a failed flat
download propagates `CalledProcessError`).  `none` models the `TypeError`
from `pathify_remote_loc` on a prefix with no token runs. -/
def FileCache.install (env : IEnv) (fc : FileCache) (config : Config) (version : String) :
    Option (List IEvent × Bool) :=
  match FileCache.cache_path fc config version "",
      FileCache.cache_path fc config version tarGzSuffix with
  | some cached_path, some cached_archive_path =>
    some (
      if env.cachedExists then
        ([IEvent.setupEvt, IEvent.installFromCache cached_path config.local_path], true)
      else
        let remote_archive_loc := FileCache.remote_loc config version tarGzSuffix
        let dl1 := IEvent.download remote_archive_loc cached_archive_path
        if env.archiveDownloadOk then
          ([IEvent.setupEvt, dl1,
            IEvent.decompress cached_archive_path cached_path,
            IEvent.unlinkFile cached_archive_path,
            IEvent.makeReadonly cached_path,
            IEvent.installFromCache cached_path config.local_path], true)
        else
          let remoteL := FileCache.remote_loc config version ""
          let dl2 := IEvent.download remoteL cached_path
          if env.flatDownloadOk then
            ([IEvent.setupEvt, dl1, dl2,
              IEvent.makeReadonly cached_path,
              IEvent.installFromCache cached_path config.local_path], true)
          else ([IEvent.setupEvt, dl1, dl2], false))
  | _, _ => none

/-- The cache-root state `FileCache.setup` observes and mutates: the marker
file contents (at `version_path`), existence of `contents/`, and the
in-memory `setup_done` flag. -/
structure CacheState where
  markerContent : Option String
  contentsDir : Bool
  setup_done : Bool
deriving DecidableEq, Repr

/-- The `FileCache.version` class attribute (instaclone.py line 200). -/
def FileCache.cacheVersion : String := "1"

/-- `FileCache.setup` (instaclone.py lines 209-218): lazily initialize; when
the marker file is absent, create `contents/` and write the marker. -/
def FileCache.setup (s : CacheState) : CacheState :=
  if s.setup_done then s
  else if s.markerContent.isSome then { s with setup_done := true }
  else
    { markerContent := some (FileCache.cacheVersion ++ "\n")
      contentsDir := true
      setup_done := true }

/-- The loop body of `select_configs` (instaclone.py lines 376-382): for
each requested item take the first config with that name, raising
`ValueError` when there is none. -/
def selectLoop (config_list : List Config) : List String → Except String (List Config)
  | [] => Except.ok []
  | item :: rest =>
    match config_list.filter (fun config => config.name == item) with
    | [] => Except.error ("Could not find config for item: " ++ item)
    | m :: _ =>
      match selectLoop config_list rest with
      | Except.ok acc => Except.ok (m :: acc)
      | Except.error e => Except.error e

/-- `select_configs` (instaclone.py lines 372-383): an empty (falsy) item
selection returns the whole config list. -/
def select_configs (config_list : List Config) (items : List String) :
    Except String (List Config) :=
  if items.isEmpty then Except.ok config_list
  else selectLoop config_list items

/-- Modelled from the spec: the cache path "resolves to a location inside
the contents/ subtree" when its normalization is `contents` or strictly
below it (stated for a cache rooted at `""`, whose contents directory is
the relative path `contents`). -/
def insideContents (q : String) : Bool :=
  pyNormpath q == "contents" || pyStartswith (pyNormpath q) "contents/"

/-- The concrete item of the spec's scenario: `name="lib"`,
`local_path="lib"`, `remote_prefix="s3://bucket/ic"`, `install_method=Copy`,
`version_string="v1"` (and an empty `remote_path`, which the scenario
leaves out of the expected cache path). -/
def cfgLibC3 : Config :=
  { name := "lib", local_path := "lib", remote_path := "",
    remote_prefix := "s3://bucket/ic", install_method := InstallMethod.copy,
    version_string := some "v1", version_hashable := none, version_command := none }

/-- An item whose `remote_prefix` carries `..` runs. -/
def cfgDotDot : Config :=
  { name := "x", local_path := "x", remote_path := "r",
    remote_prefix := "../../etc", install_method := InstallMethod.copy,
    version_string := some "v", version_hashable := none, version_command := none }

/-- A well-behaved item used to instantiate universally quantified
theorems. -/
def cfgPlain : Config :=
  { name := "data", local_path := "data", remote_path := "proj",
    remote_prefix := "s3://bucket/ic", install_method := InstallMethod.copy,
    version_string := some "v1", version_hashable := none, version_command := none }

/-- `cfgPlain` with a slash-spelling of the same sanitized remote
location. -/
def cfgPlainSlash : Config :=
  { cfgPlain with remote_prefix := "s3/bucket/ic" }

/-- An item with no version source at all. -/
def cfgNoSrc : Config :=
  { name := "x", local_path := "x", remote_path := "r", remote_prefix := "p",
    install_method := InstallMethod.symlink,
    version_string := none, version_hashable := none, version_command := none }

/-- An item whose only version source is a command. -/
def cfgCmd : Config :=
  { cfgNoSrc with version_command := some "vcmd" }

/-- An item whose version sources are a string and a hashable file. -/
def cfgHash : Config :=
  { cfgNoSrc with version_string := some "v1", version_hashable := some "f.txt" }

/-- A version environment returning fixed strings. -/
def envZero : VEnv := ⟨fun _ => "", fun _ => ""⟩

/-- A version environment whose command output fails the token pattern. -/
def envBad : VEnv := ⟨fun _ => "aaaa", fun _ => "bad output!"⟩

/-- A version environment with digest `aaaa` and command output `ok1`. -/
def envA : VEnv := ⟨fun _ => "aaaa", fun _ => "ok1"⟩

/-- `envA` after the hashed file changed: digest `bbbb`, same command
output. -/
def envB : VEnv := ⟨fun _ => "bbbb", fun _ => "ok1"⟩

/-- A source tree `src` holding one symlink `a -> ../src2/x`, with the link
target `src2/x` a real file outside the tree. -/
def fs7 : Fs :=
  { islink := fun p => p == "src/a"
    readlink := fun p => if p == "src/a" then "../src2/x" else ""
    pathExists := fun p => p == "src/a" || p == "src2/x" }

/-- The part of a `cache_path` before the
`<name>.$<version>$/<basename><suffix>` tail, for a sanitized prefix `P`
and remote path `R`: used to state how `cache_path` decomposes for
slash-free names, versions and suffixes. -/
def cacheStem (fc : FileCache) (P R : String) : String :=
  if pyIsAbs R then joinTail R
  else joinTail fc.contents_path ++ P ++ "/" ++ joinTail R

/-! ### Helper lemmas -/

theorem strData_append (s t : String) : (s ++ t).data = s.data ++ t.data := rfl

theorem strOfData_eq (s t : String) (h : s.data = t.data) : s = t := String.ext h

theorem find?_eq_head?_filter (l : List Config) (p : Config → Bool) :
    l.find? p = (l.filter p).head? := by
  induction l with
  | nil => rfl
  | cons a t ih =>
    cases hpa : p a with
    | true => rw [List.find?_cons_of_pos _ hpa, List.filter_cons_of_pos hpa, List.head?_cons]
    | false => rw [List.find?_cons_of_neg _ (by simp [hpa]), List.filter_cons_of_neg (by simp [hpa]), ih]

theorem clear_symlink_of_not_link (st : TState) (n : FsNode) (ht : st.target = some n)
    (hn : n.isLink = false) : clear_symlink st = st := by
  unfold clear_symlink
  rw [ht]
  cases n with
  | symlink t => simp [FsNode.isLink] at hn
  | file i => rfl
  | dir i => rfl

theorem checked_remove_noforce (tp : String) (b : Bool) (st : TState) (n : FsNode)
    (ht : st.target = some n) (hn : n.isLink = false) :
    checked_remove tp false b st =
      (st, some (IErr.appError ("Target already exists: " ++ tp))) := by
  simp [checked_remove, clear_symlink_of_not_link st n ht hn, ht]

theorem checked_remove_force_backup (tp : String) (st : TState) (n : FsNode)
    (ht : st.target = some n) (hn : n.isLink = false) :
    checked_remove tp true true st = ({ target := none, backup := some n }, none) := by
  simp [checked_remove, clear_symlink_of_not_link st n ht hn, ht]

theorem checked_remove_force_nobackup (tp : String) (st : TState) (n : FsNode)
    (ht : st.target = some n) (hn : n.isLink = false) :
    checked_remove tp true false st = ({ st with target := none }, none) := by
  simp [checked_remove, clear_symlink_of_not_link st n ht hn, ht]

/-! ### C9: setup is idempotent -/

/-- C9: `FileCache.setup` writes `contents/` and the `"1" ++ "\n"` marker
when the marker is absent, changes no cache state when the marker is
present, and running it twice equals running it once. -/
theorem c9_setup_idempotent (s : CacheState) :
    FileCache.cacheVersion ++ "\n" = "1\n" ∧
    (s.setup_done = false → s.markerContent = none →
      FileCache.setup s =
        { markerContent := some (FileCache.cacheVersion ++ "\n")
          contentsDir := true, setup_done := true }) ∧
    (s.markerContent.isSome = true →
      (FileCache.setup s).markerContent = s.markerContent ∧
      (FileCache.setup s).contentsDir = s.contentsDir) ∧
    FileCache.setup (FileCache.setup s) = FileCache.setup s := by
  obtain ⟨mc, cd, sd⟩ := s
  refine ⟨rfl, ?_, ?_, ?_⟩ <;> cases sd <;> cases mc <;> simp [FileCache.setup]

/-- C9 witness: the concrete fresh state. -/
theorem c9_witness :
    FileCache.setup { markerContent := none, contentsDir := false, setup_done := false } =
      { markerContent := some (FileCache.cacheVersion ++ "\n")
        contentsDir := true, setup_done := true } :=
  (c9_setup_idempotent { markerContent := none, contentsDir := false, setup_done := false }).2.1
    rfl rfl

/-! ### C10: select_configs -/

theorem selectLoop_error_of_missing (config_list : List Config) :
    ∀ items : List String,
      (∃ it ∈ items, config_list.find? (fun c => c.name == it) = none) →
      ∃ msg, selectLoop config_list items = Except.error msg := by
  intro items
  induction items with
  | nil => rintro ⟨it, h, -⟩; simp at h
  | cons a rest ih =>
    rintro ⟨it, hmem, hnone⟩
    rcases List.mem_cons.mp hmem with h | h
    · subst h
      rw [find?_eq_head?_filter] at hnone
      cases hfil : config_list.filter (fun c => c.name == it) with
      | nil =>
        exact ⟨"Could not find config for item: " ++ it, by simp [selectLoop, hfil]⟩
      | cons m t => rw [hfil] at hnone; simp at hnone
    · cases hfil : config_list.filter (fun c => c.name == a) with
      | nil =>
        exact ⟨"Could not find config for item: " ++ a, by simp [selectLoop, hfil]⟩
      | cons m t =>
        obtain ⟨msg, hmsg⟩ := ih ⟨it, h, hnone⟩
        exact ⟨msg, by simp [selectLoop, hfil, hmsg]⟩

theorem selectLoop_ok_of_found (config_list : List Config) :
    ∀ items : List String,
      (∀ it ∈ items, (config_list.find? (fun c => c.name == it)).isSome = true) →
      ∃ res, selectLoop config_list items = Except.ok res ∧
        List.Forall₂ (fun it c => config_list.find? (fun d => d.name == it) = some c)
          items res := by
  intro items
  induction items with
  | nil => intro _; exact ⟨[], rfl, List.Forall₂.nil⟩
  | cons a rest ih =>
    intro hall
    have ha := hall a (List.mem_cons_self a rest)
    rw [find?_eq_head?_filter] at ha
    cases hfil : config_list.filter (fun c => c.name == a) with
    | nil => rw [hfil] at ha; simp at ha
    | cons m t =>
      obtain ⟨res, hres, hfa⟩ := ih (fun it h => hall it (List.mem_cons_of_mem a h))
      refine ⟨m :: res, by simp [selectLoop, hfil, hres], List.Forall₂.cons ?_ hfa⟩
      rw [find?_eq_head?_filter, hfil, List.head?_cons]

/-- C10: `select_configs` returns the whole list for an empty selection;
for a non-empty selection it returns, per requested name in order, the
first config with that name; it errors when a requested name has no
matching config. -/
theorem c10_select_configs (config_list : List Config) (items : List String) :
    (items = [] → select_configs config_list items = Except.ok config_list) ∧
    ((∃ it ∈ items, config_list.find? (fun c => c.name == it) = none) →
      ∃ msg, select_configs config_list items = Except.error msg) ∧
    (items ≠ [] →
      (∀ it ∈ items, (config_list.find? (fun c => c.name == it)).isSome = true) →
      ∃ res, select_configs config_list items = Except.ok res ∧
        List.Forall₂ (fun it c => config_list.find? (fun d => d.name == it) = some c)
          items res) := by
  refine ⟨?_, ?_, ?_⟩
  · intro h; subst h; rfl
  · rintro ⟨it, hmem, hnone⟩
    have hne : items ≠ [] := by rintro rfl; simp at hmem
    obtain ⟨msg, hmsg⟩ := selectLoop_error_of_missing config_list items ⟨it, hmem, hnone⟩
    exact ⟨msg, by simp [select_configs, List.isEmpty_iff, hne, hmsg]⟩
  · intro hne hall
    obtain ⟨res, hres, hfa⟩ := selectLoop_ok_of_found config_list items hall
    exact ⟨res, by simp [select_configs, List.isEmpty_iff, hne, hres], hfa⟩

/-- C10 witness: a two-config list, selecting the second then the first by
name. -/
theorem c10_witness :
    (select_configs [cfgPlain, cfgNoSrc] [] = Except.ok [cfgPlain, cfgNoSrc]) ∧
    (∃ msg, select_configs [cfgPlain, cfgNoSrc] ["absent"] = Except.error msg) ∧
    (∃ res, select_configs [cfgPlain, cfgNoSrc] ["x", "data"] = Except.ok res ∧
      List.Forall₂
        (fun it c => ([cfgPlain, cfgNoSrc] : List Config).find? (fun d => d.name == it) = some c)
        ["x", "data"] res) :=
  ⟨(c10_select_configs [cfgPlain, cfgNoSrc] []).1 rfl,
   (c10_select_configs [cfgPlain, cfgNoSrc] ["absent"]).2.1
     ⟨"absent", by decide, by decide⟩,
   (c10_select_configs [cfgPlain, cfgNoSrc] ["x", "data"]).2.2 (by decide) (by decide)⟩

/-! ### C3: the concrete scenario's cache paths -/

/-- C3 counterexample: for the spec's concrete item the computed cache
archive and entry paths are not `contents/bucket/ic/...` as claimed. -/
theorem c3_counterexample :
    FileCache.cache_path (FileCache.ofRoot "") cfgLibC3 "v1" tarGzSuffix ≠
      some "contents/bucket/ic/lib.$v1$/lib.tar.gz" ∧
    FileCache.cache_path (FileCache.ofRoot "") cfgLibC3 "v1" "" ≠
      some "contents/bucket/ic/lib.$v1$/lib" := by
  constructor <;> decide

/-- C3 amended: the `s3` scheme is itself a `[a-zA-Z0-9_.-]+` run of the
remote prefix, so the cache archive path is
`contents/s3/bucket/ic/lib.$v1$/lib.tar.gz` and the cache entry path is
`contents/s3/bucket/ic/lib.$v1$/lib`. -/
theorem c3_amended :
    FileCache.cache_path (FileCache.ofRoot "") cfgLibC3 "v1" tarGzSuffix =
      some "contents/s3/bucket/ic/lib.$v1$/lib.tar.gz" ∧
    FileCache.cache_path (FileCache.ofRoot "") cfgLibC3 "v1" "" =
      some "contents/s3/bucket/ic/lib.$v1$/lib" := by
  constructor <;> decide

/-! ### C5: version resolution failures -/

/-- C5 amended: `version_for` fails with `ConfigError` when the version
command's stripped output does not match `^[\w.-]+$`; with no version
source configured it does not fail but returns the empty version string. -/
theorem c5_version_failures (env : VEnv) (config : Config) :
    (∀ c, config.version_command = some c → c ≠ "" →
      versionReMatch (pyStrip (env.check_output c)) = false →
      ∃ msg, version_for env config = Except.error (VError.configError msg)) ∧
    (config.version_string = none → config.version_hashable = none →
      config.version_command = none → version_for env config = Except.ok "") := by
  constructor
  · intro c hc hne hbad
    refine ⟨"Invalid version output from version command: " ++ pyStrip (env.check_output c), ?_⟩
    simp [version_for, pyTruthy, hc, hne, hbad]
  · intro h1 h2 h3
    simp [version_for, pyTruthy, h1, h2, h3, joinDash]

/-- C5 witness: a command whose output `bad output!` fails the pattern. -/
theorem c5_witness :
    ∃ msg, version_for envBad cfgCmd = Except.error (VError.configError msg) :=
  (c5_version_failures envBad cfgCmd).1 "vcmd" rfl (by decide) (by decide)

/-- C5 counterexample: with no version source configured, `version_for`
returns the empty version string instead of raising. -/
theorem c5_counterexample : version_for envZero cfgNoSrc = Except.ok "" := rfl

/-! ### C7: archive symlink policy -/

/-- C7: in the tree `src` the symlink `a -> ../src2/x` resolves to
`src2/x`, which is outside the source tree; yet the filter of `targz_dir`
keeps the symlink as-is under both settings of `dereference_ext_symlinks`,
because its escape test rejoins the already source-rooted target onto
`norm_source_dir` before the prefix check.  This contradicts the comment
at archives.py lines 68-69 ("If it's absolute or outside our source dir,
resolve it or error"). -/
theorem c7_escaping_symlink_kept :
    followlink fs7 "src/a" 10 = Except.ok "src2/x" ∧
    withinTree "src" "src2/x" = false ∧
    classify_symlink fs7 "src" "a" true = Except.ok LinkAction.keepLink ∧
    classify_symlink fs7 "src" "a" false = Except.ok LinkAction.keepLink := by
  refine ⟨rfl, by decide, rfl, rfl⟩

/-! ### C6: existing-target handling in _install_from_cache -/

/-- C6 amended: with an existing non-symlink target, `force=false` fails
with "Target already exists" leaving the state unchanged, `force=true,
backup=true` renames the target to the backup slot, and `force=true,
backup=false` removes it outright — for Symlink and Copy always, for
Hardlink when the cache entry is not a directory (a directory fails
earlier with "Can't hardlink a directory"), and for FastCopy only when the
cache entry is not a directory or rsync is unavailable.  FastCopy of a
directory cache entry with rsync available bypasses the force/backup
logic entirely: an existing directory target is silently mirrored over
regardless of `force`, while an existing regular-file target makes rsync
exit nonzero, propagating an uncaught `CalledProcessError` (not "target
already exists") and leaving the file in place. -/
theorem c6_install_target_handling (cn n : FsNode) (cp tp : String)
    (rsync force backup : Bool) (st : TState)
    (ht : st.target = some n) (hn : n.isLink = false) :
    (force = false →
      (_install_from_cache (some cn) cp tp rsync InstallMethod.symlink force backup st =
        (st, some (IErr.appError ("Target already exists: " ++ tp)))) ∧
      (_install_from_cache (some cn) cp tp rsync InstallMethod.copy force backup st =
        (st, some (IErr.appError ("Target already exists: " ++ tp)))) ∧
      (cn.isDirNode = false →
        _install_from_cache (some cn) cp tp rsync InstallMethod.hardlink force backup st =
          (st, some (IErr.appError ("Target already exists: " ++ tp)))) ∧
      (cn.isDirNode = false ∨ rsync = false →
        _install_from_cache (some cn) cp tp rsync InstallMethod.fastcopy force backup st =
          (st, some (IErr.appError ("Target already exists: " ++ tp))))) ∧
    (force = true → backup = true →
      (_install_from_cache (some cn) cp tp rsync InstallMethod.symlink force backup st =
        ({ target := some (FsNode.symlink cp), backup := some n }, none)) ∧
      (_install_from_cache (some cn) cp tp rsync InstallMethod.copy force backup st =
        ({ target := some cn, backup := some n }, none)) ∧
      (cn.isDirNode = false →
        _install_from_cache (some cn) cp tp rsync InstallMethod.hardlink force backup st =
          ({ target := some cn, backup := some n }, none)) ∧
      (cn.isDirNode = false ∨ rsync = false →
        _install_from_cache (some cn) cp tp rsync InstallMethod.fastcopy force backup st =
          ({ target := some cn, backup := some n }, none))) ∧
    (force = true → backup = false →
      (_install_from_cache (some cn) cp tp rsync InstallMethod.symlink force backup st =
        ({ target := some (FsNode.symlink cp), backup := st.backup }, none)) ∧
      (_install_from_cache (some cn) cp tp rsync InstallMethod.copy force backup st =
        ({ target := some cn, backup := st.backup }, none)) ∧
      (cn.isDirNode = false →
        _install_from_cache (some cn) cp tp rsync InstallMethod.hardlink force backup st =
          ({ target := some cn, backup := st.backup }, none)) ∧
      (cn.isDirNode = false ∨ rsync = false →
        _install_from_cache (some cn) cp tp rsync InstallMethod.fastcopy force backup st =
          ({ target := some cn, backup := st.backup }, none))) ∧
    (cn.isDirNode = true → rsync = true →
      ((∃ i, n = FsNode.file i) →
        _install_from_cache (some cn) cp tp rsync InstallMethod.fastcopy force backup st =
          (st, some (IErr.calledProcessError
            "rsync exited nonzero: cannot overwrite non-directory target"))) ∧
      ((∃ j, n = FsNode.dir j) →
        _install_from_cache (some cn) cp tp rsync InstallMethod.fastcopy force backup st =
          ({ st with target := some cn }, none))) := by
  refine ⟨?_, ?_, ?_, ?_⟩
  · rintro rfl
    refine ⟨?_, ?_, ?_, ?_⟩
    · simp [_install_from_cache, checked_remove_noforce tp backup st n ht hn]
    · simp [_install_from_cache, checked_remove_noforce tp backup st n ht hn]
    · intro hdir
      simp [_install_from_cache, hdir, checked_remove_noforce tp backup st n ht hn]
    · rintro (hdir | hr)
      · simp [_install_from_cache, hdir, checked_remove_noforce tp backup st n ht hn]
      · cases hdir : cn.isDirNode <;>
          simp [_install_from_cache, hdir, hr, checked_remove_noforce tp backup st n ht hn]
  · rintro rfl rfl
    refine ⟨?_, ?_, ?_, ?_⟩
    · simp [_install_from_cache, checked_remove_force_backup tp st n ht hn]
    · simp [_install_from_cache, checked_remove_force_backup tp st n ht hn]
    · intro hdir
      simp [_install_from_cache, hdir, checked_remove_force_backup tp st n ht hn]
    · rintro (hdir | hr)
      · simp [_install_from_cache, hdir, checked_remove_force_backup tp st n ht hn]
      · cases hdir : cn.isDirNode <;>
          simp [_install_from_cache, hdir, hr, checked_remove_force_backup tp st n ht hn]
  · rintro rfl rfl
    have hrem := checked_remove_force_nobackup tp st n ht hn
    refine ⟨?_, ?_, ?_, ?_⟩
    · simp [_install_from_cache, hrem]
    · simp [_install_from_cache, hrem]
    · intro hdir
      simp [_install_from_cache, hdir, hrem]
    · rintro (hdir | hr)
      · simp [_install_from_cache, hdir, hrem]
      · cases hdir : cn.isDirNode <;> simp [_install_from_cache, hdir, hr, hrem]
  · rintro hdir rfl
    have hcs := clear_symlink_of_not_link st n ht hn
    constructor
    · rintro ⟨i, rfl⟩
      simp [_install_from_cache, hdir, hcs, ht]
    · rintro ⟨j, rfl⟩
      simp [_install_from_cache, hdir, hcs, ht]

/-- C6 witness: the no-force failure at a concrete file target. -/
theorem c6_witness :
    _install_from_cache (some (FsNode.file 5)) "c" "t" true InstallMethod.symlink false false
      { target := some (FsNode.file 1), backup := none } =
    ({ target := some (FsNode.file 1), backup := none },
      some (IErr.appError "Target already exists: t")) :=
  ((c6_install_target_handling (FsNode.file 5) (FsNode.file 1) "c" "t" true false false
    { target := some (FsNode.file 1), backup := none } rfl rfl).1 rfl).1

/-- C6 counterexample: FastCopy with a directory cache entry and rsync
available silently mirrors over an existing directory target although
`force=false`, instead of failing with "target already exists"; with an
existing regular-file target it fails with the uncaught
`CalledProcessError` from rsync's nonzero exit, again not "target already
exists"; and Hardlink with a directory cache entry fails with "Can't
hardlink a directory" rather than the claimed error. -/
theorem c6_counterexample :
    (_install_from_cache (some (FsNode.dir 0)) "c" "t" true InstallMethod.fastcopy false false
        { target := some (FsNode.dir 1), backup := none } =
      ({ target := some (FsNode.dir 0), backup := none }, none)) ∧
    (_install_from_cache (some (FsNode.dir 0)) "c" "t" true InstallMethod.fastcopy false false
        { target := some (FsNode.file 1), backup := none } =
      ({ target := some (FsNode.file 1), backup := none },
        some (IErr.calledProcessError
          "rsync exited nonzero: cannot overwrite non-directory target"))) ∧
    (_install_from_cache (some (FsNode.dir 0)) "c" "t" true InstallMethod.hardlink false false
        { target := some (FsNode.file 1), backup := none } =
      ({ target := some (FsNode.file 1), backup := none },
        some (IErr.appError "Can't hardlink a directory: c"))) := by
  refine ⟨rfl, rfl, rfl⟩

/-! ### C4: version string structure and sensitivity -/

theorem version_for_ok (env : VEnv) (config : Config)
    (hs : ∀ s, config.version_string = some s → s ≠ "")
    (hh : ∀ f, config.version_hashable = some f → f ≠ "")
    (hc : ∀ c, config.version_command = some c → c ≠ "")
    (hre : ∀ c, config.version_command = some c →
      versionReMatch (pyStrip (env.check_output c)) = true) :
    version_for env config = Except.ok (joinDash
      (config.version_string.toList ++
        (config.version_hashable.map env.file_sha1).toList ++
        (config.version_command.map (fun c => pyStrip (env.check_output c))).toList)) := by
  cases hvs : config.version_string with
  | none =>
    cases hvh : config.version_hashable with
    | none =>
      cases hvc : config.version_command with
      | none => simp [version_for, pyTruthy, hvs, hvh, hvc]
      | some c => simp [version_for, pyTruthy, hvs, hvh, hvc, hc c hvc, hre c hvc]
    | some f =>
      cases hvc : config.version_command with
      | none => simp [version_for, pyTruthy, hvs, hvh, hvc, hh f hvh]
      | some c => simp [version_for, pyTruthy, hvs, hvh, hvc, hh f hvh, hc c hvc, hre c hvc]
  | some s =>
    cases hvh : config.version_hashable with
    | none =>
      cases hvc : config.version_command with
      | none => simp [version_for, pyTruthy, hvs, hvh, hvc, hs s hvs]
      | some c => simp [version_for, pyTruthy, hvs, hvh, hvc, hs s hvs, hc c hvc, hre c hvc]
    | some f =>
      cases hvc : config.version_command with
      | none => simp [version_for, pyTruthy, hvs, hvh, hvc, hs s hvs, hh f hvh]
      | some c =>
        simp [version_for, pyTruthy, hvs, hvh, hvc, hs s hvs, hh f hvh, hc c hvc, hre c hvc]

theorem joinDash_mid_inj (vsOpt cmdOpt : Option String) (d1 d2 : String)
    (hlen : d1.length = d2.length)
    (h : joinDash (vsOpt.toList ++ [d1] ++ cmdOpt.toList) =
      joinDash (vsOpt.toList ++ [d2] ++ cmdOpt.toList)) : d1 = d2 := by
  cases vsOpt with
  | none =>
    cases cmdOpt with
    | none => simpa [joinDash] using h
    | some c =>
      simp only [Option.toList_none, Option.toList_some, List.nil_append, joinDash] at h
      have hd := congrArg String.data h
      simp only [strData_append] at hd
      have : d1.data ++ ("-".data ++ c.data) = d2.data ++ ("-".data ++ c.data) := by
        simpa [List.append_assoc] using hd
      exact strOfData_eq _ _ ((List.append_inj this hlen).1)
  | some s =>
    cases cmdOpt with
    | none =>
      simp only [Option.toList_none, Option.toList_some, joinDash] at h
      have hd := congrArg String.data h
      simp only [strData_append, List.append_assoc] at hd
      exact strOfData_eq _ _ (List.append_cancel_left (List.append_cancel_left hd))
    | some c =>
      simp only [Option.toList_none, Option.toList_some, joinDash] at h
      have hd := congrArg String.data h
      simp only [strData_append, List.append_assoc] at hd
      have h2 := List.append_cancel_left (List.append_cancel_left hd)
      have h3 : d1.data ++ ("-".data ++ c.data) = d2.data ++ ("-".data ++ c.data) := by
        simpa [List.append_assoc] using h2
      exact strOfData_eq _ _ ((List.append_inj h3 hlen).1)

/-- C4: under nonempty configured sources with pattern-valid command
output, `version_for` is the dash-join of exactly the configured sources
in the order (version string, file digest, command output); it is a pure
function of its environment (determinism); and changing the hashed file's
digest (same length, as SHA-1 digests are) while the command output is
unchanged changes the version string. -/
theorem c4_version_structure (env : VEnv) (config : Config)
    (hs : ∀ s, config.version_string = some s → s ≠ "")
    (hh : ∀ f, config.version_hashable = some f → f ≠ "")
    (hc : ∀ c, config.version_command = some c → c ≠ "")
    (hre : ∀ c, config.version_command = some c →
      versionReMatch (pyStrip (env.check_output c)) = true) :
    (version_for env config = Except.ok (joinDash
      (config.version_string.toList ++
        (config.version_hashable.map env.file_sha1).toList ++
        (config.version_command.map (fun c => pyStrip (env.check_output c))).toList))) ∧
    version_for env config = version_for env config ∧
    (∀ (env' : VEnv) (f : String), config.version_hashable = some f →
      env'.check_output = env.check_output →
      (env.file_sha1 f).length = (env'.file_sha1 f).length →
      env.file_sha1 f ≠ env'.file_sha1 f →
      version_for env config ≠ version_for env' config) := by
  refine ⟨version_for_ok env config hs hh hc hre, rfl, ?_⟩
  intro env' f hf hco hlen hdiff heq
  have hre' : ∀ c, config.version_command = some c →
      versionReMatch (pyStrip (env'.check_output c)) = true := by
    intro c hvc; rw [hco]; exact hre c hvc
  rw [version_for_ok env config hs hh hc hre,
    version_for_ok env' config hs hh hc hre'] at heq
  have hjoin := Except.ok.inj heq
  rw [hf] at hjoin
  simp only [Option.map_some, hco] at hjoin
  exact hdiff (joinDash_mid_inj config.version_string
    (config.version_command.map (fun c => pyStrip (env.check_output c)))
    (env.file_sha1 f) (env'.file_sha1 f) hlen (by simpa using hjoin))

/-- C4 witness: version string plus hashed file; digests `aaaa` vs `bbbb`
give different version strings, same inputs give `v1-aaaa`. -/
theorem c4_witness :
    version_for envA cfgHash = Except.ok "v1-aaaa" ∧
    version_for envA cfgHash ≠ version_for envB cfgHash := by
  have h := c4_version_structure envA cfgHash
    (by intro s hsome; injection hsome with h2; rw [← h2]; decide)
    (by intro f hsome; injection hsome with h2; rw [← h2]; decide)
    (by intro c hsome; exact absurd hsome (by simp [cfgHash, cfgNoSrc]))
    (by intro c hsome; exact absurd hsome (by simp [cfgHash, cfgNoSrc]))
  refine ⟨?_, h.2.2 envB "f.txt" rfl rfl (by decide) (by decide)⟩
  rw [h.1]; rfl

/-! ### C8: install transfer flow -/

theorem pyIsAbs_append (a b : String) (ha : a ≠ "") : pyIsAbs (a ++ b) = pyIsAbs a := by
  unfold pyIsAbs
  rw [strData_append]
  cases hd : a.data with
  | nil => exact absurd (strOfData_eq a "" hd) ha
  | cons c t => simp


theorem pyJoin2_append_suffix (a b s : String) (habs : pyIsAbs (b ++ s) = pyIsAbs b) :
    pyJoin2 a (b ++ s) = pyJoin2 a b ++ s := by
  unfold pyJoin2
  rw [habs]
  cases hb : pyIsAbs b with
  | true => simp
  | false =>
    simp only [Bool.false_eq_true, if_false]
    by_cases hae : (a = "" || endsWithSlash a) = true
    · simp [hae, String.append_assoc]
    · simp [hae, String.append_assoc]

theorem mid_ne_empty (config : Config) (version : String) :
    config.name ++ VERSION_SEP ++ version ++ VERSION_END ≠ "" := by
  intro h
  have hd := congrArg String.data h
  simp [strData_append, VERSION_END] at hd

theorem pyJoin2_eq_empty (a b : String) (h : pyJoin2 a b = "") : a = "" ∧ b = "" := by
  unfold pyJoin2 at h
  cases hb : pyIsAbs b with
  | true =>
    rw [hb] at h
    simp only [if_true] at h
    subst h
    simp [pyIsAbs] at hb
  | false =>
    rw [hb] at h
    simp only [Bool.false_eq_true, if_false] at h
    by_cases hae : (a = "" || endsWithSlash a) = true
    · rw [if_pos hae] at h
      have hd := congrArg String.data h
      rw [strData_append] at hd
      have := List.append_eq_nil.mp hd
      exact ⟨strOfData_eq a "" this.1, strOfData_eq b "" this.2⟩
    · rw [if_neg hae] at h
      have hd := congrArg String.data h
      simp [strData_append] at hd

theorem basename_no_slash (s : String) : '/' ∉ (pyBasename s).data := by
  intro hmem
  unfold pyBasename at hmem
  simp only [List.mem_reverse] at hmem
  have := List.mem_takeWhile_imp hmem
  simp at this

theorem versioned_path_ne_empty (config : Config) (version suffix : String) :
    FileCache.versioned_path config version suffix ≠ "" := by
  intro h
  unfold FileCache.versioned_path at h
  have h1 := (pyJoin2_eq_empty _ _ h).1
  have h2 := (pyJoin2_eq_empty _ _ h1).2
  exact mid_ne_empty config version h2

theorem versioned_path_suffix (config : Config) (version : String) :
    FileCache.versioned_path config version tarGzSuffix =
      FileCache.versioned_path config version "" ++ tarGzSuffix := by
  unfold FileCache.versioned_path
  have hb : pyBasename config.name ++ "" = pyBasename config.name := by simp
  rw [hb]
  apply pyJoin2_append_suffix
  unfold pyIsAbs
  rw [strData_append]
  cases hd : (pyBasename config.name).data with
  | nil => simp [tarGzSuffix]
  | cons c t =>
    have hc : c ≠ '/' := by
      intro h
      exact basename_no_slash config.name (by rw [hd, h]; exact List.mem_cons_self _ _)
    simp [hc]

theorem cache_path_suffix (fc : FileCache) (config : Config) (version P : String)
    (hp : FileCache.pathify_remote_loc config.remote_prefix = some P) :
    FileCache.cache_path fc config version tarGzSuffix =
      (FileCache.cache_path fc config version "").map (fun cp => cp ++ tarGzSuffix) := by
  unfold FileCache.cache_path
  rw [hp]
  simp only [Option.map_some']
  congr 1
  rw [versioned_path_suffix]
  apply pyJoin2_append_suffix
  exact pyIsAbs_append _ _ (versioned_path_ne_empty config version "")

/-- C8: with the cache entry present locally no download runs; with it
absent the archive download is attempted first and exactly once, the flat
download to the cache entry path happens exactly when the archive download
fails, and a successful archive download is unpacked into the entry and
then deleted. -/
theorem c8_install_flow (env : IEnv) (fc : FileCache) (config : Config) (version : String)
    (P : String) (hp : FileCache.pathify_remote_loc config.remote_prefix = some P) :
    ∃ trace done, FileCache.install env fc config version = some (trace, done) ∧
      (env.cachedExists = true → trace.filter IEvent.isDownload = []) ∧
      (env.cachedExists = false →
        ∃ cp ca,
          FileCache.cache_path fc config version "" = some cp ∧
          FileCache.cache_path fc config version tarGzSuffix = some ca ∧
          ca = cp ++ tarGzSuffix ∧
          trace.filter IEvent.isDownload =
            (if env.archiveDownloadOk then
              [IEvent.download (FileCache.remote_loc config version tarGzSuffix) ca]
            else
              [IEvent.download (FileCache.remote_loc config version tarGzSuffix) ca,
                IEvent.download (FileCache.remote_loc config version "") cp]) ∧
          (trace.filter IEvent.isDownload).count
            (IEvent.download (FileCache.remote_loc config version tarGzSuffix) ca) = 1 ∧
          (IEvent.download (FileCache.remote_loc config version "") cp ∈ trace ↔
            env.archiveDownloadOk = false) ∧
          (env.archiveDownloadOk = true →
            IEvent.decompress ca cp ∈ trace ∧ IEvent.unlinkFile ca ∈ trace) ∧
          (env.archiveDownloadOk = false → done = env.flatDownloadOk)) := by
  obtain ⟨ce, ado, fdo⟩ := env
  set cp := pyJoin2 (pyJoin2 fc.contents_path P) (FileCache.versioned_path config version "")
    with hcp_def
  have hcp : FileCache.cache_path fc config version "" = some cp := by
    unfold FileCache.cache_path
    rw [hp]
    rfl
  have hca2 : FileCache.cache_path fc config version tarGzSuffix = some (cp ++ tarGzSuffix) := by
    rw [cache_path_suffix fc config version P hp, hcp]
    rfl
  have hne : ¬ cp = cp ++ tarGzSuffix := by
    intro h
    have h2 := congrArg String.length h
    rw [String.length_append] at h2
    have h3 : tarGzSuffix.length = 7 := rfl
    omega
  have hinstall : ∀ pr, (if ce then
        ([IEvent.setupEvt, IEvent.installFromCache cp config.local_path], true)
      else
        let remote_archive_loc := FileCache.remote_loc config version tarGzSuffix
        let dl1 := IEvent.download remote_archive_loc (cp ++ tarGzSuffix)
        if ado then
          ([IEvent.setupEvt, dl1,
            IEvent.decompress (cp ++ tarGzSuffix) cp,
            IEvent.unlinkFile (cp ++ tarGzSuffix),
            IEvent.makeReadonly cp,
            IEvent.installFromCache cp config.local_path], true)
        else
          let remoteL := FileCache.remote_loc config version ""
          let dl2 := IEvent.download remoteL cp
          if fdo then
            ([IEvent.setupEvt, dl1, dl2,
              IEvent.makeReadonly cp,
              IEvent.installFromCache cp config.local_path], true)
          else ([IEvent.setupEvt, dl1, dl2], false)) = pr →
      FileCache.install ⟨ce, ado, fdo⟩ fc config version = some pr := by
    intro pr hpr
    unfold FileCache.install
    rw [hcp, hca2, ← hpr]
  cases ce with
  | true =>
    refine ⟨[IEvent.setupEvt, IEvent.installFromCache cp config.local_path], true,
      hinstall _ (by simp), ?_, ?_⟩
    · intro _
      simp [List.filter, IEvent.isDownload]
    · intro h; cases h
  | false =>
    cases ado with
    | true =>
      refine ⟨[IEvent.setupEvt,
        IEvent.download (FileCache.remote_loc config version tarGzSuffix) (cp ++ tarGzSuffix),
        IEvent.decompress (cp ++ tarGzSuffix) cp,
        IEvent.unlinkFile (cp ++ tarGzSuffix),
        IEvent.makeReadonly cp,
        IEvent.installFromCache cp config.local_path], true,
        hinstall _ (by simp), ?_, ?_⟩
      · intro h; cases h
      · intro _
        refine ⟨cp, cp ++ tarGzSuffix, hcp, hca2, rfl, ?_, ?_, ?_, ?_, ?_⟩
        · simp [List.filter, IEvent.isDownload]
        · simp [List.filter, IEvent.isDownload, List.count_cons]
        · simp [hne]
        · intro _
          simp
        · intro h; cases h
    | false =>
      cases fdo with
      | true =>
        refine ⟨[IEvent.setupEvt,
          IEvent.download (FileCache.remote_loc config version tarGzSuffix) (cp ++ tarGzSuffix),
          IEvent.download (FileCache.remote_loc config version "") cp,
          IEvent.makeReadonly cp,
          IEvent.installFromCache cp config.local_path], true,
          hinstall _ (by simp), ?_, ?_⟩
        · intro h; cases h
        · intro _
          refine ⟨cp, cp ++ tarGzSuffix, hcp, hca2, rfl, ?_, ?_, ?_, ?_, ?_⟩
          · simp [List.filter, IEvent.isDownload]
          · simp [List.filter, IEvent.isDownload, List.count_cons, hne]
          · simp
          · intro h; cases h
          · intro _; rfl
      | false =>
        refine ⟨[IEvent.setupEvt,
          IEvent.download (FileCache.remote_loc config version tarGzSuffix) (cp ++ tarGzSuffix),
          IEvent.download (FileCache.remote_loc config version "") cp], false,
          hinstall _ (by simp), ?_, ?_⟩
        · intro h; cases h
        · intro _
          refine ⟨cp, cp ++ tarGzSuffix, hcp, hca2, rfl, ?_, ?_, ?_, ?_, ?_⟩
          · simp [List.filter, IEvent.isDownload]
          · simp [List.filter, IEvent.isDownload, List.count_cons, hne]
          · simp
          · intro h; cases h
          · intro _; rfl

/-- C8 witness: concrete flow for `cfgPlain` with the cache entry absent
and a failing archive download: the flat download to the entry path
happens. -/
theorem c8_witness :
    ∃ trace done,
      FileCache.install ⟨false, false, true⟩ (FileCache.ofRoot "") cfgPlain "v1" =
        some (trace, done) ∧
      IEvent.download (FileCache.remote_loc cfgPlain "v1" "")
        "contents/s3/bucket/ic/proj/data.$v1$/data" ∈ trace := by
  obtain ⟨trace, done, h1, -, h3⟩ :=
    c8_install_flow ⟨false, false, true⟩ (FileCache.ofRoot "") cfgPlain "v1"
      "s3/bucket/ic" (by decide)
  obtain ⟨cp, ca, hcp, -, -, -, -, hmem, -, -⟩ := h3 rfl
  have hcpv : cp = "contents/s3/bucket/ic/proj/data.$v1$/data" := by
    have h4 : some cp = some "contents/s3/bucket/ic/proj/data.$v1$/data" := by
      rw [← hcp]; decide
    exact Option.some.inj h4
  exact ⟨trace, done, h1, (hcpv ▸ hmem).mpr rfl⟩

/-! ### Token-run and path-shape lemmas (for C1 and C2) -/

theorem mem_of_getLast?_eq (l : List Char) (a : Char) (h : l.getLast? = some a) : a ∈ l := by
  obtain ⟨hne, heq⟩ := List.mem_getLast?_eq_getLast (show a ∈ l.getLast? from h)
  rw [heq]
  exact List.getLast_mem hne

theorem getLast?_append_right (l1 l2 : List Char) (h : l2 ≠ []) :
    (l1 ++ l2).getLast? = l2.getLast? := by
  rw [List.getLast?_append]
  cases hl : l2.getLast? with
  | none => exact absurd (List.getLast?_eq_none_iff.mp hl) h
  | some b => simp

theorem tokenRunsAux_props :
    ∀ (l : List Char) (acc : Option (List Char)),
      (∀ r, acc = some r → r ≠ [] ∧ ∀ c ∈ r, isTokChar c = true) →
      ∀ run ∈ tokenRunsAux l acc, run ≠ [] ∧ ∀ c ∈ run, isTokChar c = true := by
  intro l
  induction l with
  | nil =>
    intro acc hacc run hrun
    cases acc with
    | none => simp [tokenRunsAux] at hrun
    | some r =>
      simp [tokenRunsAux] at hrun
      subst hrun
      obtain ⟨h1, h2⟩ := hacc r rfl
      exact ⟨by simpa using h1, fun c hc => h2 c (List.mem_reverse.mp hc)⟩
  | cons c cs ih =>
    intro acc hacc run hrun
    cases acc with
    | none =>
      by_cases h : isTokChar c = true
      · rw [show tokenRunsAux (c :: cs) none = tokenRunsAux cs (some [c]) from by
          simp [tokenRunsAux, h]] at hrun
        refine ih (some [c]) ?_ run hrun
        intro r hr
        injection hr with hr
        subst hr
        exact ⟨by simp, by simpa using h⟩
      · rw [show tokenRunsAux (c :: cs) none = tokenRunsAux cs none from by
          simp [tokenRunsAux, h]] at hrun
        exact ih none (by intro r hr; cases hr) run hrun
    | some r =>
      by_cases h : isTokChar c = true
      · rw [show tokenRunsAux (c :: cs) (some r) = tokenRunsAux cs (some (c :: r)) from by
          simp [tokenRunsAux, h]] at hrun
        refine ih (some (c :: r)) ?_ run hrun
        intro r' hr'
        injection hr' with hr'
        subst hr'
        obtain ⟨h1, h2⟩ := hacc r rfl
        refine ⟨by simp, ?_⟩
        intro d hd
        rcases List.mem_cons.mp hd with rfl | hd
        · exact h
        · exact h2 d hd
      · rw [show tokenRunsAux (c :: cs) (some r) = r.reverse :: tokenRunsAux cs none from by
          simp [tokenRunsAux, h]] at hrun
        rcases List.mem_cons.mp hrun with rfl | hrun
        · obtain ⟨h1, h2⟩ := hacc r rfl
          exact ⟨by simpa using h1, fun d hd => h2 d (List.mem_reverse.mp hd)⟩
        · exact ih none (by intro r' hr'; cases hr') run hrun

theorem tokenRuns_props (s : String) :
    ∀ run ∈ tokenRuns s, run ≠ [] ∧ ∀ c ∈ run, isTokChar c = true :=
  tokenRunsAux_props s.data none (by intro r hr; cases hr)

theorem tokenRuns_no_slash (s : String) : ∀ run ∈ tokenRuns s, '/' ∉ run := by
  intro run hrun hmem
  exact absurd ((tokenRuns_props s run hrun).2 '/' hmem) (by decide)

theorem joinWithSlash_cons_eq (r : List Char) (rest : List (List Char)) :
    r ++ joinWithSlash ([] :: rest) = joinWithSlash (r :: rest) := by
  cases rest <;> simp [joinWithSlash]

theorem str_empty_append (b : String) : "" ++ b = b :=
  strOfData_eq _ _ rfl

theorem foldl_pyJoin2_data :
    ∀ (rs : List (List Char)) (a : String),
      a ≠ "" → endsWithSlash a = false →
      (∀ r ∈ rs, r ≠ [] ∧ '/' ∉ r) →
      ((rs.map (fun l => (⟨l⟩ : String))).foldl pyJoin2 a).data =
        a.data ++ joinWithSlash ([] :: rs) := by
  intro rs
  induction rs with
  | nil =>
    intro a _ _ _
    simp [joinWithSlash]
  | cons r rest ih =>
    intro a ha hsl hall
    obtain ⟨hrne, hrs⟩ := hall r (List.mem_cons_self r rest)
    have habs : pyIsAbs ⟨r⟩ = false := by
      unfold pyIsAbs
      cases hr : r with
      | nil => rfl
      | cons c t =>
        have hc : c ≠ '/' := fun h => hrs (hr ▸ h ▸ List.mem_cons_self c t)
        simp [hc]
    have hjoin : pyJoin2 a ⟨r⟩ = a ++ "/" ++ ⟨r⟩ := by
      unfold pyJoin2
      simp [habs, ha, hsl]
    have hdata : (a ++ "/" ++ (⟨r⟩ : String)).data = a.data ++ '/' :: r := by
      simp [strData_append]
    have ha' : a ++ "/" ++ (⟨r⟩ : String) ≠ "" := by
      intro h
      have := congrArg String.data h
      rw [hdata] at this
      simp at this
    have hsl' : endsWithSlash (a ++ "/" ++ (⟨r⟩ : String)) = false := by
      unfold endsWithSlash
      rw [hdata]
      rw [show a.data ++ '/' :: r = (a.data ++ ['/']) ++ r by simp]
      rw [getLast?_append_right _ _ hrne]
      cases hlast : r.getLast? with
      | none => rfl
      | some c =>
        have hc : c ≠ '/' := fun h => hrs (h ▸ mem_of_getLast?_eq r c hlast)
        simp [hc]
    show ((List.map (fun l => (⟨l⟩ : String)) (r :: rest)).foldl pyJoin2 a).data = _
    rw [List.map_cons, List.foldl_cons, hjoin,
      ih _ ha' hsl' (fun r' h => hall r' (List.mem_cons_of_mem r h)), hdata]
    rw [show a.data ++ '/' :: r = a.data ++ ('/' :: r) from rfl, List.append_assoc]
    congr 1
    show '/' :: (r ++ joinWithSlash ([] :: rest)) = joinWithSlash ([] :: r :: rest)
    rw [joinWithSlash_cons_eq]
    rfl

theorem pathify_shape (s : String) (r : List Char) (rs : List (List Char))
    (h : tokenRuns s = r :: rs) :
    ∃ P : String, FileCache.pathify_remote_loc s = some P ∧
      P.data = joinWithSlash (r :: rs) := by
  have props := tokenRuns_props s
  have hns := tokenRuns_no_slash s
  rw [h] at props hns
  have hr := props r (List.mem_cons_self r rs)
  have hrs := hns r (List.mem_cons_self r rs)
  refine ⟨_, by unfold FileCache.pathify_remote_loc; rw [h], ?_⟩
  have hane : (⟨r⟩ : String) ≠ "" := by
    intro h2
    exact hr.1 (congrArg String.data h2)
  have hasl : endsWithSlash (⟨r⟩ : String) = false := by
    unfold endsWithSlash
    cases hlast : r.getLast? with
    | none => rfl
    | some c =>
      have hc : c ≠ '/' := fun hcc => hrs (hcc ▸ mem_of_getLast?_eq r c hlast)
      simp [hc]
  rw [foldl_pyJoin2_data rs ⟨r⟩ hane hasl
    (fun r' h' => ⟨(props r' (List.mem_cons_of_mem r h')).1, hns r' (List.mem_cons_of_mem r h')⟩)]
  exact joinWithSlash_cons_eq r rs

theorem pySplitChars_ne_nil : ∀ l : List Char, pySplitChars l ≠ [] := by
  intro l
  induction l with
  | nil => simp [pySplitChars]
  | cons c cs ih =>
    unfold pySplitChars
    cases h : pySplitChars cs with
    | nil => exact absurd h ih
    | cons hd tl => by_cases hc : (c == '/') = true <;> simp [hc]

theorem pySplitChars_cons_sep (cs : List Char) :
    pySplitChars ('/' :: cs) = [] :: pySplitChars cs := by
  cases h : pySplitChars cs with
  | nil => exact absurd h (pySplitChars_ne_nil cs)
  | cons hd tl =>
    unfold pySplitChars
    rw [h]
    simp

theorem pySplitChars_cons_nosep (c : Char) (cs : List Char) (hc : c ≠ '/') :
    ∃ h t, pySplitChars cs = h :: t ∧ pySplitChars (c :: cs) = (c :: h) :: t := by
  cases h : pySplitChars cs with
  | nil => exact absurd h (pySplitChars_ne_nil cs)
  | cons hd tl =>
    refine ⟨hd, tl, rfl, ?_⟩
    unfold pySplitChars
    rw [h]
    simp [hc]

theorem pySplitChars_append_sep (y : List Char) :
    ∀ x : List Char, pySplitChars (x ++ '/' :: y) = pySplitChars x ++ pySplitChars y := by
  intro x
  induction x with
  | nil =>
    rw [List.nil_append, pySplitChars_cons_sep]
    rfl
  | cons c cs ih =>
    by_cases hc : c = '/'
    · subst hc
      rw [List.cons_append, pySplitChars_cons_sep, pySplitChars_cons_sep, ih]
      rfl
    · obtain ⟨h1, t1, hs1, he1⟩ := pySplitChars_cons_nosep c (cs ++ '/' :: y) hc
      obtain ⟨h2, t2, hs2, he2⟩ := pySplitChars_cons_nosep c cs hc
      rw [List.cons_append, he1, he2]
      rw [ih, hs2] at hs1
      cases ht2 : t2 with
      | nil =>
        rw [ht2] at hs1
        have hs1' : h2 :: pySplitChars y = h1 :: t1 := hs1
        injection hs1' with ha hb
        show (c :: h1) :: t1 = (c :: h2) :: pySplitChars y
        rw [ha, hb]
      | cons u v =>
        rw [ht2] at hs1
        have hs1' : h2 :: ((u :: v) ++ pySplitChars y) = h1 :: t1 := hs1
        injection hs1' with ha hb
        show (c :: h1) :: t1 = (c :: h2) :: ((u :: v) ++ pySplitChars y)
        rw [ha, hb]

theorem pySplitChars_no_sep : ∀ l : List Char, '/' ∉ l → pySplitChars l = [l] := by
  intro l
  induction l with
  | nil => intro _; rfl
  | cons c cs ih =>
    intro h
    have hc : c ≠ '/' := fun hc => h (hc ▸ List.mem_cons_self c cs)
    have hcs := ih (fun hm => h (List.mem_cons_of_mem _ hm))
    obtain ⟨h1, t1, hs1, he1⟩ := pySplitChars_cons_nosep c cs hc
    rw [hcs] at hs1
    injection hs1 with ha hb
    rw [he1, ha, hb]

theorem normAux_nil (init : Nat) (acc : List (List Char)) :
    normAux init acc [] = acc.reverse := rfl

theorem normAux_cons_skip (init : Nat) (acc : List (List Char)) (comp : List Char)
    (rest : List (List Char)) (he : (comp == [] || comp == ['.']) = true) :
    normAux init acc (comp :: rest) = normAux init acc rest := by
  have he' : comp = [] ∨ comp = ['.'] := by simpa using he
  conv_lhs => rw [normAux.eq_def]
  simp [he']

theorem normAux_cons_keep (init : Nat) (acc : List (List Char)) (comp : List Char)
    (rest : List (List Char)) (he : (comp == [] || comp == ['.']) = false)
    (hne : comp ≠ ['.', '.']) :
    normAux init acc (comp :: rest) = normAux init (comp :: acc) rest := by
  have he' : ¬(comp = [] ∨ comp = ['.']) := by simpa using he
  conv_lhs => rw [normAux.eq_def]
  simp [he', hne]

theorem normAux_no_dotdot :
    ∀ (comps : List (List Char)) (init : Nat) (acc : List (List Char)),
      (∀ c ∈ comps, c ≠ ['.', '.']) →
      normAux init acc comps =
        acc.reverse ++ comps.filter (fun c => !(c == [] || c == ['.'])) := by
  intro comps
  induction comps with
  | nil =>
    intro init acc _
    simp [normAux_nil]
  | cons comp rest ih =>
    intro init acc h
    have hcomp : comp ≠ ['.', '.'] := h comp (List.mem_cons_self comp rest)
    have hrest : ∀ c ∈ rest, c ≠ ['.', '.'] := fun c hc => h c (List.mem_cons_of_mem _ hc)
    by_cases he : (comp == [] || comp == ['.']) = true
    · rw [normAux_cons_skip init acc comp rest he, ih init acc hrest, List.filter_cons]
      have hcond : (!(comp == [] || comp == ['.'])) = false := by rw [he]; rfl
      rw [hcond]
      simp
    · have he' : (comp == [] || comp == ['.']) = false := by
        cases hx : (comp == [] || comp == ['.']) with
        | true => exact absurd hx he
        | false => rfl
      rw [normAux_cons_keep init acc comp rest he' hcomp, ih init (comp :: acc) hrest,
        List.filter_cons]
      have hcond : (!(comp == [] || comp == ['.'])) = true := by rw [he']; rfl
      rw [hcond]
      simp [List.reverse_cons, List.append_assoc]

theorem pyNormpath_relative (q : String) (hq : q ≠ "") (hst : pyStartswith q "/" = false) :
    pyNormpath q =
      (if joinWithSlash (normAux 0 [] (pySplitChars q.data)) = [] then "."
        else ⟨joinWithSlash (normAux 0 [] (pySplitChars q.data))⟩) := by
  unfold pyNormpath
  rw [if_neg hq, hst]
  simp

theorem insideContents_of_comps (q : String) (rest : List (List Char))
    (hsplit : pySplitChars q.data = "contents".data :: rest)
    (hnd : ∀ c ∈ rest, c ≠ ['.', '.']) :
    insideContents q = true := by
  have hqne : q ≠ "" := by
    intro h
    subst h
    rw [show pySplitChars ("" : String).data = [[]] from rfl] at hsplit
    injection hsplit with h1 h2
    exact absurd h1.symm (by decide)
  have hq : q.data ≠ [] := fun h => hqne (strOfData_eq q "" h)
  obtain ⟨c0, t0, hd⟩ : ∃ c0 t0, q.data = c0 :: t0 := by
    cases hq' : q.data with
    | nil => exact absurd hq' hq
    | cons a b => exact ⟨a, b, rfl⟩
  have hc0 : c0 = 'c' := by
    rw [hd] at hsplit
    by_cases hcc : c0 = '/'
    · rw [hcc, pySplitChars_cons_sep] at hsplit
      injection hsplit with h1 h2
      exact absurd h1.symm (by decide)
    · obtain ⟨hh, tt, hsp, hcons⟩ := pySplitChars_cons_nosep c0 t0 hcc
      rw [hcons] at hsplit
      injection hsplit with h1 h2
      have h3 := congrArg List.head? h1
      rw [List.head?_cons] at h3
      rw [show ("contents".data).head? = some 'c' from rfl] at h3
      exact Option.some.inj h3
  have hstart : pyStartswith q "/" = false := by
    show ("/" : String).data.isPrefixOf q.data = false
    rw [hd, hc0]
    simp [List.isPrefixOf]
  have hall : ∀ c ∈ "contents".data :: rest, c ≠ ['.', '.'] := by
    intro c hc
    rcases List.mem_cons.mp hc with rfl | hc
    · decide
    · exact hnd c hc
  have hnorm : normAux 0 [] (pySplitChars q.data) =
      "contents".data :: rest.filter (fun c => !(c == [] || c == ['.'])) := by
    rw [hsplit, normAux_no_dotdot _ 0 [] hall, List.filter_cons]
    simp
  have hnp : pyNormpath q =
      (if joinWithSlash ("contents".data ::
          rest.filter (fun c => !(c == [] || c == ['.']))) = [] then "."
        else ⟨joinWithSlash ("contents".data ::
          rest.filter (fun c => !(c == [] || c == ['.'])))⟩) := by
    rw [pyNormpath_relative q hqne hstart, hnorm]
  unfold insideContents
  cases hfil : rest.filter (fun c => !(c == [] || c == ['.'])) with
  | nil =>
    rw [hfil] at hnp
    rw [hnp]
    decide
  | cons f t =>
    rw [hfil] at hnp
    rw [show joinWithSlash ("contents".data :: f :: t) =
        "contents".data ++ '/' :: joinWithSlash (f :: t) from rfl] at hnp
    rw [if_neg (by simp)] at hnp
    rw [hnp]
    refine Bool.or_eq_true_iff.mpr (Or.inr ?_)
    show ("contents/" : String).data.isPrefixOf
      ("contents".data ++ '/' :: joinWithSlash (f :: t)) = true
    rw [List.isPrefixOf_iff_prefix]
    rw [show ("contents/" : String).data = "contents".data ++ ['/'] from rfl]
    rw [show "contents".data ++ '/' :: joinWithSlash (f :: t) =
        ("contents".data ++ ['/']) ++ joinWithSlash (f :: t) from by simp]
    exact List.prefix_append _ _

/-! ### Join decomposition lemmas (for C1 and C2) -/

theorem pyIsAbs_of_no_slash (s : String) (h : '/' ∉ s.data) : pyIsAbs s = false := by
  unfold pyIsAbs
  cases hs : s.data with
  | nil => rfl
  | cons c t =>
    have hc : c ≠ '/' := fun hcc => h (hs ▸ hcc ▸ List.mem_cons_self c t)
    simp [hc]

theorem pyIsAbs_concat_head (a b : String) (hn : '/' ∉ a.data) (hb : pyIsAbs b = false) :
    pyIsAbs (a ++ b) = false := by
  unfold pyIsAbs at *
  rw [strData_append]
  cases ha : a.data with
  | nil => simpa using hb
  | cons c t =>
    have hc : c ≠ '/' := fun h => hn (ha ▸ h ▸ List.mem_cons_self c t)
    simp [hc]

theorem ne_empty_of_append_right (a b : String) (hb : b ≠ "") : a ++ b ≠ "" := by
  intro h
  have hd := congrArg String.data h
  rw [strData_append] at hd
  exact hb (strOfData_eq b "" (List.append_eq_nil.mp hd).2)

theorem endsWithSlash_append (a b : String) (hb : b ≠ "") :
    endsWithSlash (a ++ b) = endsWithSlash b := by
  unfold endsWithSlash
  rw [strData_append, getLast?_append_right _ _ (fun h => hb (strOfData_eq b "" h))]

theorem pyJoin2_eq_joinTail (a b : String) (hb : pyIsAbs b = false) :
    pyJoin2 a b = joinTail a ++ b := by
  unfold pyJoin2 joinTail
  rw [hb]
  simp only [Bool.false_eq_true, if_false]
  by_cases ha : a = ""
  · simp [ha, str_empty_append]
  · by_cases hsl : endsWithSlash a = true
    · simp [ha, hsl]
    · simp [ha, hsl]

theorem basename_of_no_slash (s : String) (h : '/' ∉ s.data) : pyBasename s = s := by
  unfold pyBasename
  have htw : s.data.reverse.takeWhile (· != '/') = s.data.reverse := by
    apply List.takeWhile_eq_self_iff.mpr
    intro c hc
    have : c ≠ '/' := fun hcc => h (List.mem_reverse.mp (hcc ▸ hc))
    simp [this]
  rw [htw, List.reverse_reverse]

theorem mid_not_abs (config : Config) (version : String) (hn : '/' ∉ config.name.data) :
    pyIsAbs (config.name ++ VERSION_SEP ++ version ++ VERSION_END) = false := by
  rw [show config.name ++ VERSION_SEP ++ version ++ VERSION_END =
      config.name ++ (VERSION_SEP ++ (version ++ VERSION_END)) from by
    simp [String.append_assoc]]
  refine pyIsAbs_concat_head _ _ hn ?_
  rw [pyIsAbs_append VERSION_SEP _ (by decide)]
  decide

theorem mid_data_getLast? (config : Config) (version : String) :
    (config.name ++ VERSION_SEP ++ version ++ VERSION_END).data.getLast? = some '$' := by
  rw [strData_append, getLast?_append_right _ _ (by decide)]
  rfl

theorem joinTail_ne_empty (R : String) (h : R ≠ "") : joinTail R ≠ "" := by
  unfold joinTail
  rw [if_neg h]
  by_cases hsl : endsWithSlash R = true
  · simpa [hsl] using h
  · simp only [hsl, Bool.false_eq_true, if_false]
    exact ne_empty_of_append_right R "/" (by decide)

theorem pyIsAbs_joinTail (R : String) : pyIsAbs (joinTail R) = pyIsAbs R := by
  unfold joinTail
  by_cases hR : R = ""
  · simp [hR]
  · rw [if_neg hR]
    by_cases hsl : endsWithSlash R = true
    · simp [hsl]
    · simp only [hsl, Bool.false_eq_true, if_false]
      exact pyIsAbs_append R "/" hR

theorem joinTail_of_not_slash (X : String) (hne : X ≠ "") (hsl : endsWithSlash X = false) :
    joinTail X = X ++ "/" := by
  unfold joinTail
  rw [if_neg hne]
  simp [hsl]

theorem pyJoin2_abs (a b : String) (h : pyIsAbs b = true) : pyJoin2 a b = b := by
  unfold pyJoin2
  rw [h]
  simp

theorem endsWithSlash_mid (config : Config) (version : String) :
    endsWithSlash (config.name ++ VERSION_SEP ++ version ++ VERSION_END) = false := by
  unfold endsWithSlash
  rw [mid_data_getLast? config version]
  rfl

theorem versioned_path_decomp (config : Config) (version suffix : String)
    (hn : '/' ∉ config.name.data) (hs : '/' ∉ suffix.data) :
    FileCache.versioned_path config version suffix =
      joinTail config.remote_path ++
        (config.name ++ VERSION_SEP ++ version ++ VERSION_END) ++ "/" ++
        (config.name ++ suffix) := by
  unfold FileCache.versioned_path
  rw [basename_of_no_slash config.name hn]
  rw [pyJoin2_eq_joinTail _ _ (mid_not_abs config version hn)]
  rw [pyJoin2_eq_joinTail _ _
    (pyIsAbs_concat_head _ _ hn (pyIsAbs_of_no_slash suffix hs))]
  rw [joinTail_of_not_slash _ (ne_empty_of_append_right _ _ (mid_ne_empty config version))
    (by rw [endsWithSlash_append _ _ (mid_ne_empty config version)]
        exact endsWithSlash_mid config version)]

theorem cache_path_decomp (fc : FileCache) (config : Config) (version suffix P : String)
    (hP : FileCache.pathify_remote_loc config.remote_prefix = some P)
    (hPne : P ≠ "") (hPabs : pyIsAbs P = false) (hPend : endsWithSlash P = false)
    (hn : '/' ∉ config.name.data) (hs : '/' ∉ suffix.data) :
    FileCache.cache_path fc config version suffix = some
      (cacheStem fc P config.remote_path ++
        (config.name ++ VERSION_SEP ++ version ++ VERSION_END) ++ "/" ++
        (config.name ++ suffix)) := by
  unfold FileCache.cache_path
  rw [hP]
  simp only [Option.map_some']
  congr 1
  rw [versioned_path_decomp config version suffix hn hs]
  have hmidne := mid_ne_empty config version
  have hslash_ne : ("/" : String) ≠ "" := by decide
  have hVabs : pyIsAbs (joinTail config.remote_path ++
        (config.name ++ VERSION_SEP ++ version ++ VERSION_END) ++ "/" ++
        (config.name ++ suffix)) =
      pyIsAbs config.remote_path := by
    by_cases hR : config.remote_path = ""
    · rw [hR]
      rw [show joinTail "" = "" from rfl, str_empty_append]
      rw [pyIsAbs_append _ _ (ne_empty_of_append_right _ _ hslash_ne)]
      rw [pyIsAbs_append _ _ hmidne]
      rw [mid_not_abs config version hn]
      rfl
    · have hJT := joinTail_ne_empty _ hR
      rw [pyIsAbs_append _ _ (ne_empty_of_append_right _ _ hslash_ne)]
      rw [pyIsAbs_append _ _ (ne_empty_of_append_right _ _ hmidne)]
      rw [pyIsAbs_append _ _ hJT]
      exact pyIsAbs_joinTail config.remote_path
  by_cases habs : pyIsAbs config.remote_path = true
  · rw [pyJoin2_abs _ _ (hVabs.trans habs)]
    unfold cacheStem
    rw [if_pos habs]
  · have habs' : pyIsAbs config.remote_path = false := by
      cases h : pyIsAbs config.remote_path with
      | true => exact absurd h habs
      | false => rfl
    rw [pyJoin2_eq_joinTail _ _ hPabs]
    rw [pyJoin2_eq_joinTail _ _ (hVabs.trans habs')]
    rw [joinTail_of_not_slash (joinTail fc.contents_path ++ P)
      (ne_empty_of_append_right _ _ hPne)
      (by rw [endsWithSlash_append _ _ hPne]; exact hPend)]
    unfold cacheStem
    rw [if_neg (by simp [habs'])]
    simp [String.append_assoc]

theorem endsWithSlash_of_no_slash (s : String) (h : '/' ∉ s.data) :
    endsWithSlash s = false := by
  unfold endsWithSlash
  cases hl : s.data.getLast? with
  | none => rfl
  | some c =>
    have hc : c ≠ '/' := fun hcc => h (hcc ▸ mem_of_getLast?_eq _ _ hl)
    simp [hc]

theorem joinWithSlash_getLast? :
    ∀ (rs : List (List Char)) (r : List Char), (∀ l ∈ r :: rs, l ≠ []) →
      ∃ run ∈ r :: rs, (joinWithSlash (r :: rs)).getLast? = run.getLast? := by
  intro rs
  induction rs with
  | nil =>
    intro r _
    exact ⟨r, List.mem_cons_self r [], rfl⟩
  | cons y t ih =>
    intro r h
    have hyt : ∀ l ∈ y :: t, l ≠ [] := fun l hl => h l (List.mem_cons_of_mem _ hl)
    obtain ⟨run, hrunmem, hrun⟩ := ih y hyt
    refine ⟨run, List.mem_cons_of_mem _ hrunmem, ?_⟩
    show (r ++ '/' :: joinWithSlash (y :: t)).getLast? = _
    rw [getLast?_append_right r _ (by simp)]
    have hne : joinWithSlash (y :: t) ≠ [] := by
      cases t with
      | nil => simpa [joinWithSlash] using hyt y (List.mem_cons_self y [])
      | cons a b => simp [joinWithSlash]
    rw [show ('/' :: joinWithSlash (y :: t)) = ['/'] ++ joinWithSlash (y :: t) from rfl]
    rw [getLast?_append_right _ _ hne]
    exact hrun

theorem pySplitChars_joinWithSlash :
    ∀ (rs : List (List Char)) (r : List Char), '/' ∉ r → (∀ l ∈ rs, '/' ∉ l) →
      pySplitChars (joinWithSlash (r :: rs)) = r :: rs := by
  intro rs
  induction rs with
  | nil =>
    intro r hr _
    exact pySplitChars_no_sep r hr
  | cons y t ih =>
    intro r hr hall
    show pySplitChars (r ++ '/' :: joinWithSlash (y :: t)) = r :: y :: t
    rw [pySplitChars_append_sep, pySplitChars_no_sep r hr,
      ih y (hall y (List.mem_cons_self y t)) (fun l hl => hall l (List.mem_cons_of_mem _ hl))]
    rfl

theorem pathify_full (s : String) (r : List Char) (rs : List (List Char))
    (htok : tokenRuns s = r :: rs) :
    ∃ P, FileCache.pathify_remote_loc s = some P ∧ P.data = joinWithSlash (r :: rs) ∧
      P ≠ "" ∧ pyIsAbs P = false ∧ endsWithSlash P = false ∧
      pySplitChars P.data = r :: rs := by
  obtain ⟨P, hP, hPdata⟩ := pathify_shape s r rs htok
  have props := tokenRuns_props s
  have hns := tokenRuns_no_slash s
  rw [htok] at props hns
  have hrne := (props r (List.mem_cons_self r rs)).1
  have hrtok := (props r (List.mem_cons_self r rs)).2
  have hrns := hns r (List.mem_cons_self r rs)
  obtain ⟨c, tr, hr⟩ : ∃ c tr, r = c :: tr := by
    cases hrr : r with
    | nil => exact absurd hrr hrne
    | cons a b => exact ⟨a, b, rfl⟩
  have hcne : c ≠ '/' := fun hcc => hrns (hr ▸ hcc ▸ List.mem_cons_self c tr)
  have hPne : P ≠ "" := by
    intro h
    have hd := congrArg String.data h
    rw [hPdata] at hd
    cases rs with
    | nil => exact hrne (by simpa [joinWithSlash] using hd)
    | cons y t => simp [joinWithSlash, hr] at hd
  have hhead : P.data.head? = some c := by
    rw [hPdata, hr]
    cases rs <;> simp [joinWithSlash]
  have hPabs : pyIsAbs P = false := by
    unfold pyIsAbs
    rw [hhead]
    simp [hcne]
  have hPend : endsWithSlash P = false := by
    obtain ⟨run, hrunmem, hrun⟩ := joinWithSlash_getLast? rs r (fun l hl => (props l hl).1)
    unfold endsWithSlash
    rw [hPdata, hrun]
    cases hl : run.getLast? with
    | none => rfl
    | some d =>
      have hd : d ≠ '/' := fun hdd => hns run hrunmem (hdd ▸ mem_of_getLast?_eq _ _ hl)
      simp [hd]
  have hsplit : pySplitChars P.data = r :: rs := by
    rw [hPdata]
    exact pySplitChars_joinWithSlash rs r hrns (fun l hl => hns l (List.mem_cons_of_mem _ hl))
  exact ⟨P, hP, hPdata, hPne, hPabs, hPend, hsplit⟩

/-! ### C1: sanitization and containment -/

/-- C1 amended: `pathify_remote_loc` is exactly the `[a-zA-Z0-9_.-]+` runs
of the prefix joined as path components; and the resulting cache path stays
inside `contents/` provided no run is `..` (the run pattern matches `..`,
so that must be assumed) and the remaining path inputs are slash-free
non-`..` tokens.  Stated for a cache rooted at `""`. -/
theorem c1_sanitize_containment (config : Config) (version suffix : String)
    (h1 : tokenRuns config.remote_prefix ≠ [])
    (h2 : ∀ run ∈ tokenRuns config.remote_prefix, run ≠ ['.', '.'])
    (h3 : '/' ∉ config.remote_path.data) (h4 : config.remote_path ≠ "..")
    (h5 : '/' ∉ config.name.data) (h6 : '/' ∉ version.data) (h7 : '/' ∉ suffix.data)
    (h8 : config.name ++ suffix ≠ "..") :
    (∀ run ∈ tokenRuns config.remote_prefix, run ≠ [] ∧ ∀ c ∈ run, isTokChar c = true) ∧
    (∃ P, FileCache.pathify_remote_loc config.remote_prefix = some P ∧
      P.data = joinWithSlash (tokenRuns config.remote_prefix)) ∧
    (∃ q, FileCache.cache_path (FileCache.ofRoot "") config version suffix = some q ∧
      insideContents q = true) := by
  have hmidns : '/' ∉ (config.name ++ VERSION_SEP ++ version ++ VERSION_END).data := by
    rw [strData_append, strData_append, strData_append]
    intro hmem
    rcases List.mem_append.mp hmem with hmem | hmem
    · rcases List.mem_append.mp hmem with hmem | hmem
      · rcases List.mem_append.mp hmem with hmem | hmem
        · exact h5 hmem
        · exact absurd hmem (by decide)
      · exact h6 hmem
    · exact absurd hmem (by decide)
  have hlastns : '/' ∉ (config.name ++ suffix).data := by
    rw [strData_append]
    intro hmem
    rcases List.mem_append.mp hmem with hmem | hmem
    · exact h5 hmem
    · exact h7 hmem
  have hmidnd : (config.name ++ VERSION_SEP ++ version ++ VERSION_END).data ≠ ['.', '.'] := by
    intro h
    have hdol : '$' ∈ (config.name ++ VERSION_SEP ++ version ++ VERSION_END).data := by
      rw [strData_append]
      exact List.mem_append.mpr (Or.inr (by decide))
    rw [h] at hdol
    exact absurd hdol (by decide)
  have hlastnd : (config.name ++ suffix).data ≠ ['.', '.'] :=
    fun h => h8 (strOfData_eq _ ".." h)
  have hRnd : config.remote_path.data ≠ ['.', '.'] :=
    fun h => h4 (strOfData_eq _ ".." h)
  cases hl : tokenRuns config.remote_prefix with
  | nil => exact absurd hl h1
  | cons r rs =>
    obtain ⟨P, hP, hPdata, hPne, hPabs, hPend, hPsplit⟩ :=
      pathify_full config.remote_prefix r rs hl
    have hRabs : pyIsAbs config.remote_path = false := pyIsAbs_of_no_slash _ h3
    rw [hl] at h2
    refine ⟨fun run hrun => tokenRuns_props config.remote_prefix run (by rw [hl]; exact hrun),
      ⟨P, hP, hPdata⟩,
      ⟨_, cache_path_decomp (FileCache.ofRoot "") config version suffix P hP hPne hPabs
        hPend h5 h7, ?_⟩⟩
    by_cases hR : config.remote_path = ""
    · have hstem : cacheStem (FileCache.ofRoot "") P config.remote_path =
          ("contents" ++ "/") ++ P ++ "/" ++ "" := by
        unfold cacheStem
        rw [if_neg (by simp [hRabs]), hR]
        rfl
      refine insideContents_of_comps _ ((r :: rs) ++ [(config.name ++ VERSION_SEP ++
        version ++ VERSION_END).data, (config.name ++ suffix).data]) ?_ ?_
      · have hqdata : ((cacheStem (FileCache.ofRoot "") P config.remote_path ++
            (config.name ++ VERSION_SEP ++ version ++ VERSION_END) ++ "/" ++
            (config.name ++ suffix)) : String).data =
            "contents".data ++ '/' :: (P.data ++ '/' ::
              ((config.name ++ VERSION_SEP ++ version ++ VERSION_END).data ++ '/' ::
                (config.name ++ suffix).data)) := by
          rw [hstem]
          simp [strData_append]
        rw [hqdata, pySplitChars_append_sep, pySplitChars_no_sep "contents".data (by decide),
          pySplitChars_append_sep, hPsplit, pySplitChars_append_sep,
          pySplitChars_no_sep _ hmidns, pySplitChars_no_sep _ hlastns]
        simp
      · intro cpart hc
        rcases List.mem_append.mp hc with hc | hc
        · exact h2 cpart hc
        · rcases List.mem_cons.mp hc with rfl | hc
          · exact hmidnd
          · rcases List.mem_cons.mp hc with rfl | hc
            · exact hlastnd
            · cases hc
    · have hstem : cacheStem (FileCache.ofRoot "") P config.remote_path =
          ("contents" ++ "/") ++ P ++ "/" ++ (config.remote_path ++ "/") := by
        unfold cacheStem
        rw [if_neg (by simp [hRabs])]
        rw [joinTail_of_not_slash _ hR (endsWithSlash_of_no_slash _ h3)]
        rfl
      refine insideContents_of_comps _ ((r :: rs) ++ (config.remote_path.data ::
        [(config.name ++ VERSION_SEP ++ version ++ VERSION_END).data,
          (config.name ++ suffix).data])) ?_ ?_
      · have hqdata : ((cacheStem (FileCache.ofRoot "") P config.remote_path ++
            (config.name ++ VERSION_SEP ++ version ++ VERSION_END) ++ "/" ++
            (config.name ++ suffix)) : String).data =
            "contents".data ++ '/' :: (P.data ++ '/' :: (config.remote_path.data ++ '/' ::
              ((config.name ++ VERSION_SEP ++ version ++ VERSION_END).data ++ '/' ::
                (config.name ++ suffix).data))) := by
          rw [hstem]
          simp [strData_append]
        rw [hqdata, pySplitChars_append_sep, pySplitChars_no_sep "contents".data (by decide),
          pySplitChars_append_sep, hPsplit, pySplitChars_append_sep,
          pySplitChars_no_sep _ h3, pySplitChars_append_sep,
          pySplitChars_no_sep _ hmidns, pySplitChars_no_sep _ hlastns]
        simp
      · intro cpart hc
        rcases List.mem_append.mp hc with hc | hc
        · exact h2 cpart hc
        · rcases List.mem_cons.mp hc with rfl | hc
          · exact hRnd
          · rcases List.mem_cons.mp hc with rfl | hc
            · exact hmidnd
            · rcases List.mem_cons.mp hc with rfl | hc
              · exact hlastnd
              · cases hc

/-- C1 witness: the well-behaved prefix `s3://bucket/ic` yields a cache
path inside `contents/`. -/
theorem c1_witness :
    ∃ q, FileCache.cache_path (FileCache.ofRoot "") cfgPlain "v1" "" = some q ∧
      insideContents q = true :=
  (c1_sanitize_containment cfgPlain "v1" "" (by decide) (by decide) (by decide) (by decide)
    (by decide) (by decide) (by decide) (by decide)).2.2

/-- C1 counterexample: `..` matches `[a-zA-Z0-9_.-]+`, so the prefix
`../../etc` sanitizes to `../../etc` and the cache path escapes the
`contents/` subtree. -/
theorem c1_counterexample :
    FileCache.pathify_remote_loc "../../etc" = some "../../etc" ∧
    FileCache.cache_path (FileCache.ofRoot "") cfgDotDot "v" "" =
      some "contents/../../etc/r/x.$v$/x" ∧
    insideContents "contents/../../etc/r/x.$v$/x" = false ∧
    pyNormpath "contents/../../etc/r/x.$v$/x" = ⟨"../etc/r/x.$v$/x".data⟩ := by
  refine ⟨by decide, by decide, by decide, by decide⟩

/-! ### C2: injectivity of the cache key -/

theorem append_sep_inj (sep : Char) :
    ∀ (u u' v v' : List Char), sep ∉ u → sep ∉ u' →
      u ++ sep :: v = u' ++ sep :: v' → u = u' ∧ v = v' := by
  intro u
  induction u with
  | nil =>
    intro u' v v' _ hu' h
    cases u' with
    | nil =>
      injection h with h1 h2
      exact ⟨rfl, h2⟩
    | cons b bs =>
      injection h with h1 h2
      exact absurd (h1 ▸ List.mem_cons_self b bs) hu'
  | cons a as ih =>
    intro u' v v' hu hu' h
    cases u' with
    | nil =>
      injection h with h1 h2
      exact absurd (h1.symm ▸ List.mem_cons_self a as) hu
    | cons b bs =>
      injection h with h1 h2
      obtain ⟨he1, he2⟩ := ih bs v v' (fun hm => hu (List.mem_cons_of_mem _ hm))
        (fun hm => hu' (List.mem_cons_of_mem _ hm)) h2
      exact ⟨by rw [h1, he1], he2⟩

theorem mid_data_eq (config : Config) (version : String) :
    (config.name ++ VERSION_SEP ++ version ++ VERSION_END).data =
      (config.name.data ++ ['.']) ++ '$' :: (version.data ++ ['$']) := by
  rw [strData_append, strData_append, strData_append]
  simp [VERSION_SEP, VERSION_END]

/-- C2 amended: `cache_path` is a pure function (deterministic,
side-effect-free by construction), and it is injective in (name, version)
for a fixed remote_path, a fixed sanitized remote prefix, and a shared
suffix, provided names and versions are free of `/` and `$`; distinct
(remote_prefix, name, version) triples whose prefixes sanitize to the same
path do collide. -/
theorem c2_cache_key_injective (fc : FileCache) (cfg1 cfg2 : Config)
    (v1 v2 suffix P : String)
    (hP1 : FileCache.pathify_remote_loc cfg1.remote_prefix = some P)
    (hP2 : FileCache.pathify_remote_loc cfg2.remote_prefix = some P)
    (hR : cfg1.remote_path = cfg2.remote_path)
    (hn1 : '/' ∉ cfg1.name.data) (hn2 : '/' ∉ cfg2.name.data)
    (hd1 : '$' ∉ cfg1.name.data) (hd2 : '$' ∉ cfg2.name.data)
    (hv1 : '/' ∉ v1.data) (hv2 : '/' ∉ v2.data)
    (hw1 : '$' ∉ v1.data) (hw2 : '$' ∉ v2.data)
    (hsuf : '/' ∉ suffix.data)
    (heq : FileCache.cache_path fc cfg1 v1 suffix = FileCache.cache_path fc cfg2 v2 suffix) :
    cfg1.name = cfg2.name ∧ v1 = v2 := by
  have hmidns1 : '/' ∉ (cfg1.name ++ VERSION_SEP ++ v1 ++ VERSION_END).data := by
    rw [strData_append, strData_append, strData_append]
    intro hmem
    rcases List.mem_append.mp hmem with hmem | hmem
    · rcases List.mem_append.mp hmem with hmem | hmem
      · rcases List.mem_append.mp hmem with hmem | hmem
        · exact hn1 hmem
        · exact absurd hmem (by decide)
      · exact hv1 hmem
    · exact absurd hmem (by decide)
  have hmidns2 : '/' ∉ (cfg2.name ++ VERSION_SEP ++ v2 ++ VERSION_END).data := by
    rw [strData_append, strData_append, strData_append]
    intro hmem
    rcases List.mem_append.mp hmem with hmem | hmem
    · rcases List.mem_append.mp hmem with hmem | hmem
      · rcases List.mem_append.mp hmem with hmem | hmem
        · exact hn2 hmem
        · exact absurd hmem (by decide)
      · exact hv2 hmem
    · exact absurd hmem (by decide)
  cases hl1 : tokenRuns cfg1.remote_prefix with
  | nil => rw [FileCache.pathify_remote_loc, hl1] at hP1; cases hP1
  | cons r1 rs1 =>
  cases hl2 : tokenRuns cfg2.remote_prefix with
  | nil => rw [FileCache.pathify_remote_loc, hl2] at hP2; cases hP2
  | cons r2 rs2 =>
    obtain ⟨Q1, hQ1, hQ1data, hQ1ne, hQ1abs, hQ1end, -⟩ :=
      pathify_full cfg1.remote_prefix r1 rs1 hl1
    obtain ⟨Q2, hQ2, hQ2data, hQ2ne, hQ2abs, hQ2end, -⟩ :=
      pathify_full cfg2.remote_prefix r2 rs2 hl2
    have hPQ1 : Q1 = P := Option.some.inj (hQ1 ▸ hP1)
    have hPQ2 : Q2 = P := Option.some.inj (hQ2 ▸ hP2)
    rw [hPQ1] at hQ1ne hQ1abs hQ1end
    rw [cache_path_decomp fc cfg1 v1 suffix P hP1 hQ1ne hQ1abs hQ1end hn1 hsuf,
      cache_path_decomp fc cfg2 v2 suffix P hP2 hQ1ne hQ1abs hQ1end hn2 hsuf] at heq
    have hsame := Option.some.inj heq
    rw [hR] at hsame
    have hform : ∀ mid lastc : String,
        ((cacheStem fc P cfg2.remote_path ++ mid ++ "/" ++ lastc) : String).data =
          (cacheStem fc P cfg2.remote_path).data ++ (mid.data ++ '/' :: lastc.data) := by
      intro mid lastc
      rw [strData_append, strData_append, strData_append]
      simp [show ("/" : String).data = ['/'] from rfl, List.append_assoc]
    have hdata := congrArg String.data hsame
    rw [hform, hform] at hdata
    have hmidlast := List.append_cancel_left hdata
    obtain ⟨hmid, -⟩ := append_sep_inj '/' _ _ _ _ hmidns1 hmidns2 hmidlast
    rw [mid_data_eq cfg1 v1, mid_data_eq cfg2 v2] at hmid
    have hdot1 : '$' ∉ cfg1.name.data ++ ['.'] := by
      intro hmem
      rcases List.mem_append.mp hmem with hmem | hmem
      · exact hd1 hmem
      · exact absurd hmem (by decide)
    have hdot2 : '$' ∉ cfg2.name.data ++ ['.'] := by
      intro hmem
      rcases List.mem_append.mp hmem with hmem | hmem
      · exact hd2 hmem
      · exact absurd hmem (by decide)
    obtain ⟨hnamedot, hverdol⟩ := append_sep_inj '$' _ _ _ _ hdot1 hdot2 hmid
    constructor
    · exact strOfData_eq _ _ (List.append_cancel_right hnamedot)
    · have hv := append_sep_inj '$' _ _ _ _ hw1 hw2
        (by rw [show v1.data ++ ['$'] = v1.data ++ '$' :: [] from rfl,
          show v2.data ++ ['$'] = v2.data ++ '$' :: [] from rfl] at hverdol; exact hverdol)
      exact strOfData_eq _ _ hv.1

/-- C2 witness: equal sanitized prefixes, token names and versions —
equal cache paths force equal (name, version). -/
theorem c2_witness :
    cfgPlain.name = cfgPlain.name ∧ "v1" = "v1" :=
  c2_cache_key_injective (FileCache.ofRoot "") cfgPlain cfgPlain "v1" "v1" ""
    "s3/bucket/ic" (by decide) (by decide) rfl (by decide) (by decide) (by decide)
    (by decide) (by decide) (by decide) (by decide) (by decide) (by decide) rfl

/-- C2 counterexample: the distinct triples with prefixes
`s3://bucket/ic` and `s3/bucket/ic` (same name and version) map to the
same cache path. -/
theorem c2_counterexample :
    cfgPlain.remote_prefix ≠ cfgPlainSlash.remote_prefix ∧
    FileCache.cache_path (FileCache.ofRoot "") cfgPlain "v1" "" =
      FileCache.cache_path (FileCache.ofRoot "") cfgPlainSlash "v1" "" ∧
    (FileCache.cache_path (FileCache.ofRoot "") cfgPlain "v1" "").isSome = true := by
  refine ⟨by decide, by decide, by decide⟩
